import Mathlib

/-! Shallow embedding of a C student-record system (student.h, student.c,
file_io.c, ui.c, utils.c): a dynamic roster of student records with
duplicate-key enforcement, statistics, and persistence to a pipe-delimited
text file, together with proofs about its specified properties.

Modelling conventions:
- C strings are `List Char` (file layer) or `String`; a possibly-NULL
  `char *` is an `Option`.
- Allocation outcomes (`malloc`/`strdup`/`realloc`) and `fopen` outcomes are
  explicit boolean oracles passed as arguments; `true` means the call
  succeeds.
- Machine integers (`int`, `long`, `size_t`) are unbounded `Int`/`Nat`; every
  value manipulated by the program (rolls, marks, counts) stays far inside
  the `int` range, so wrap-around never matters here.
- A text file is its list of newline-terminated lines (`List (List Char)`,
  each entry without the terminating newline). `fgets` with the program's
  1024-byte buffer is modelled faithfully: a stored line of more than 1022
  characters is delivered to the parsing loop as several successive buffers
  (see `fgetsChunks`).
-/

namespace StudentRecords

/-- Error codes, from the `ErrorCode` enum in student.h. -/
inductive ErrorCode where
  | SUCCESS
  | ERR_MEMORY
  | ERR_NOT_FOUND
  | ERR_DUPLICATE
  | ERR_FILE_IO
  | ERR_INVALID_INPUT
deriving DecidableEq

/-- One student record (`struct Student`); `name` is an `Option` because the
C field is a possibly-NULL `char *`. -/
structure Student where
  roll : Int
  name : Option String
  marks : Int
deriving DecidableEq

/-- The roster (`struct StudentList`). `size` is `items.length`; `capacity`
is a memory-layout detail with no observable effect (growth failure of
`ensure_capacity` is covered by the allocation oracle of `add_student`) and
is omitted. -/
structure StudentList where
  items : List Student
  modified : Bool
  last_filename : Option String
deriving DecidableEq

/-- The roster produced by a successful `init_student_list`. -/
def init_student_list : StudentList :=
  { items := [], modified := false, last_filename := none }

/-- `PASS_THRESHOLD` from student.h. -/
def PASS_THRESHOLD : Int := 40

/-- `find_index_by_roll` (student.c): linear scan for the first record with
the given roll, `none` standing for the C return value -1. -/
def find_index_by_roll : List Student → Int → Option Nat
  | [], _ => none
  | s :: rest, roll =>
    if s.roll = roll then some 0
    else (find_index_by_roll rest roll).map (· + 1)

/-- `create_student` (student.c): a NULL name defaults to "Unnamed"; the
oracle `allocOk` covers the `malloc` of the struct and the `safe_strdup` of
the name (both failures make the function return NULL). -/
def create_student (roll : Int) (name : Option String) (marks : Int)
    (allocOk : Bool) : Option Student :=
  if allocOk then
    some { roll := roll, name := some (name.getD "Unnamed"), marks := marks }
  else none

/-- `add_student` (student.c): duplicate-roll check first, then capacity
growth (oracle `allocOk`), then append and set `modified`. -/
def add_student (allocOk : Bool) (st : StudentList) (s : Student) :
    ErrorCode × StudentList :=
  if (find_index_by_roll st.items s.roll).isSome then
    (ErrorCode.ERR_DUPLICATE, st)
  else if allocOk then
    (ErrorCode.SUCCESS,
      { st with items := st.items ++ [s], modified := true })
  else (ErrorCode.ERR_MEMORY, st)

/-- `remove_student_by_index` (student.c): bounds check, then delete and
shift (`List.eraseIdx`), then set `modified`. -/
def remove_student_by_index (st : StudentList) (index : Nat) :
    ErrorCode × StudentList :=
  if index < st.items.length then
    (ErrorCode.SUCCESS,
      { st with items := st.items.eraseIdx index, modified := true })
  else (ErrorCode.ERR_INVALID_INPUT, st)

/-- `modify_student` (student.c). Mirrors the C control flow: bounds check;
duplicate check only when the roll changes; then the record's `roll` and
`marks` are overwritten, the old name freed, and the new name duplicated.
When that `safe_strdup` fails (`allocOk = false`) the function returns
ERR_MEMORY with `roll` and `marks` already replaced, the name NULL, and
`modified` not set. -/
def modify_student (allocOk : Bool) (st : StudentList) (index : Nat)
    (new_roll : Int) (new_name : Option String) (new_marks : Int) :
    ErrorCode × StudentList :=
  match st.items[index]? with
  | none => (ErrorCode.ERR_INVALID_INPUT, st)
  | some cur =>
    let conflict : Bool :=
      if new_roll = cur.roll then false
      else
        match find_index_by_roll st.items new_roll with
        | some e => e != index
        | none => false
    if conflict then (ErrorCode.ERR_DUPLICATE, st)
    else if allocOk then
      (ErrorCode.SUCCESS,
        { st with
            items := st.items.set index
              { roll := new_roll, name := some (new_name.getD "Unnamed"),
                marks := new_marks },
            modified := true })
    else
      (ErrorCode.ERR_MEMORY,
        { st with
            items := st.items.set index
              { roll := new_roll, name := none, marks := new_marks } })

/-- `cmp_marks_asc` (student.c). -/
def cmp_marks_asc (a b : Student) : Int := a.marks - b.marks

/-- `cmp_marks_desc` (student.c). -/
def cmp_marks_desc (a b : Student) : Int := -(cmp_marks_asc a b)

/-- Byte-wise `strcmp`, as used by `cmp_name_asc`. -/
def strcmpChars : List Char → List Char → Int
  | [], [] => 0
  | [], c :: _ => -(c.toNat : Int)
  | c :: _, [] => (c.toNat : Int)
  | a :: x, b :: y =>
    if a = b then strcmpChars x y else (a.toNat : Int) - (b.toNat : Int)

/-- `cmp_name_asc` (student.c); a NULL name is compared as the empty
string. -/
def cmp_name_asc (a b : Student) : Int :=
  strcmpChars (a.name.getD "").data (b.name.getD "").data

/-- Insert one element into a comparator-sorted list (helper for the
`qsort` model). -/
def insertCmp (cmp : Student → Student → Int) (s : Student) :
    List Student → List Student
  | [] => [s]
  | t :: rest =>
    if cmp s t ≤ 0 then s :: t :: rest else t :: insertCmp cmp s rest

/-- Model of `qsort`: some reordering of the list that respects the
comparator (a concrete insertion sort stands in for the unspecified
permutation `qsort` picks). -/
def sortByCmp (cmp : Student → Student → Int) (l : List Student) :
    List Student :=
  l.foldr (insertCmp cmp) []

/-- `sort_students` (student.c): early return on fewer than two elements
(without touching `modified`); otherwise reorder and set `modified`. -/
def sort_students (cmp : Student → Student → Int) (st : StudentList) :
    StudentList :=
  if st.items.length < 2 then st
  else { st with items := sortByCmp cmp st.items, modified := true }

/-- Result record of `display_statistics` (ui.c); `none` models the
"No data available" early return. The two `double` quantities are modelled
as exact rationals. -/
structure StatsResult where
  count : Nat
  avg : Rat
  min_marks : Int
  max_marks : Int
  pass_count : Nat
  fail_count : Nat
  pass_rate : Rat
deriving DecidableEq

/-- One iteration of the statistics loop in `display_statistics` (ui.c);
the accumulator is (pass_count, fail_count, min_marks, max_marks,
total_marks). -/
def statsFold (acc : Nat × Nat × Int × Int × Int) (s : Student) :
    Nat × Nat × Int × Int × Int :=
  ((if s.marks ≥ PASS_THRESHOLD then acc.1 + 1 else acc.1),
   (if s.marks ≥ PASS_THRESHOLD then acc.2.1 else acc.2.1 + 1),
   (if s.marks < acc.2.2.1 then s.marks else acc.2.2.1),
   (if s.marks > acc.2.2.2.1 then s.marks else acc.2.2.2.1),
   acc.2.2.2.2 + s.marks)

/-- `display_statistics` (ui.c): `none` on an empty roster, otherwise the
aggregates from one pass with initial accumulator
(0, 0, 100, 0, 0). -/
def display_statistics (st : StudentList) : Option StatsResult :=
  if st.items.length = 0 then none
  else
    let r := st.items.foldl statsFold (0, 0, 100, 0, 0)
    some { count := st.items.length
           avg := (r.2.2.2.2 : Rat) / (st.items.length : Rat)
           min_marks := r.2.2.1
           max_marks := r.2.2.2.1
           pass_count := r.1
           fail_count := r.2.1
           pass_rate := (r.1 : Rat) / (st.items.length : Rat) * 100 }

/-- C `isspace` for the default locale, as used by `trim_inplace`. -/
def isSpaceChar (c : Char) : Bool :=
  c = ' ' || c = '\t' || c = '\n' || c = '\x0b' || c = '\x0c' || c = '\r'

/-- `trim_inplace` (utils.c): strip leading then trailing `isspace`
characters. -/
def trim_inplace (l : List Char) : List Char :=
  ((l.dropWhile isSpaceChar).reverse.dropWhile isSpaceChar).reverse

/-- Decimal digit emitter behind `printf "%d"` / `"%zu"`, fuel-indexed so
that it is structurally recursive and kernel-reducible. -/
def natDigitsAux : Nat → Nat → List Char
  | _, 0 => []
  | n, fuel + 1 =>
    if n < 10 then [Nat.digitChar n]
    else natDigitsAux (n / 10) fuel ++ [Nat.digitChar (n % 10)]

/-- Decimal representation of a natural number, most significant digit
first (what `printf "%d"` prints for a non-negative value). -/
def natDigits (n : Nat) : List Char := natDigitsAux n (n + 1)

/-- What `printf "%d"` prints for an `int`. -/
def intToChars (n : Int) : List Char :=
  if n < 0 then '-' :: natDigits n.natAbs else natDigits n.toNat

/-- Read a decimal digit string, most significant digit first. -/
def parseDigits (l : List Char) : Nat :=
  l.foldl (fun acc c => acc * 10 + (c.toNat - 48)) 0

/-- `strtol(s, NULL, 10)` as used by `load_from_file`: skip leading
whitespace, take an optional sign, read the leading run of digits (zero if
there is none), ignore everything after it. -/
def strtolInt (l : List Char) : Int :=
  match l.dropWhile isSpaceChar with
  | [] => 0
  | c :: rest =>
    if c = '-' then -(parseDigits (rest.takeWhile Char.isDigit) : Int)
    else if c = '+' then (parseDigits (rest.takeWhile Char.isDigit) : Int)
    else (parseDigits ((c :: rest).takeWhile Char.isDigit) : Int)

/-- `strchr` followed by splitting the buffer at the found character (the
C code overwrites it with NUL): `some (before, after)` on the first
occurrence, `none` if absent. -/
def strchrSplit : List Char → Char → Option (List Char × List Char)
  | [], _ => none
  | c :: rest, t =>
    if c = t then some ([], rest)
    else (strchrSplit rest t).map (fun p => (c :: p.1, p.2))

/-- The successive buffers `fgets(buffer, 1024, f)` returns for one stored
line (fuel-indexed on the line length for structural recursion): a line of
at most 1022 characters arrives as a single buffer followed by its
newline; a longer line arrives as full 1023-character buffers and a final
short one carrying the newline. -/
def fgetsChunksAux : Nat → List Char → List (List Char)
  | 0, l => [l ++ ['\n']]
  | fuel + 1, l =>
    if l.length ≤ 1022 then [l ++ ['\n']]
    else l.take 1023 :: fgetsChunksAux fuel (l.drop 1023)

/-- All `fgets` buffers delivered for one stored line. -/
def fgetsChunks (l : List Char) : List (List Char) :=
  fgetsChunksAux l.length l

/-- The per-line parsing core of `load_from_file` (file_io.c), applied to a
buffer already stripped of its newline: split at the first two pipes, read
`roll` and `marks` with `strtol`, trim the name, and validate
`roll > 0 && 0 <= marks && marks <= 100`. -/
def parseLine (line : List Char) : Option (Int × Int × String) :=
  match strchrSplit line '|' with
  | none => none
  | some (f1, rest1) =>
    match strchrSplit rest1 '|' with
    | none => none
    | some (f2, nameRaw) =>
      let roll := strtolInt f1
      let marks := strtolInt f2
      if roll ≤ 0 || marks < 0 || marks > 100 then none
      else some (roll, marks, String.mk (trim_inplace nameRaw))

/-- One iteration of the `while (fgets(...))` loop of `load_from_file`:
skip comment and empty buffers, parse, construct the student (`allocOk` is
the allocation oracle for this line) and add it; any failure of
`create_student` or `add_student` lands in the same skip-with-warning
branch. -/
def processBuffer (allocOk : Bool) (st : StudentList) (loaded : Nat)
    (buf : List Char) : StudentList × Nat :=
  if buf.head? = some '#' || buf.head? = some '\n' then (st, loaded)
  else
    match parseLine (buf.takeWhile (· ≠ '\n')) with
    | none => (st, loaded)
    | some (roll, marks, nm) =>
      match create_student roll (some nm) marks allocOk with
      | none => (st, loaded)
      | some s =>
        match add_student true st s with
        | (ErrorCode.SUCCESS, st') => (st', loaded + 1)
        | (_, _) => (st, loaded)

/-- The whole `fgets` loop of `load_from_file`; `idx` is the 0-based buffer
counter (the C `line_num` minus one) indexing the allocation oracle. -/
def loadLoop (alloc : Nat → Bool) :
    List (List Char) → Nat → StudentList → Nat → StudentList × Nat
  | [], _, st, loaded => (st, loaded)
  | buf :: rest, idx, st, loaded =>
    let r := processBuffer (alloc idx) st loaded buf
    loadLoop alloc rest (idx + 1) r.1 r.2

/-- `load_from_file` (file_io.c): on open failure return ERR_FILE_IO with
the list untouched; otherwise clear the list, run the read loop over the
`fgets` buffers, and finally duplicate the filename (oracle `finalOk`) —
on that last allocation failing, return ERR_MEMORY with whatever was
loaded and `modified`/`last_filename` not updated; on success clear
`modified`, record the filename, and report the loaded count. -/
def load_from_file (openOk : Bool) (st : StudentList) (filename : String)
    (fileLines : List (List Char)) (alloc : Nat → Bool) (finalOk : Bool) :
    ErrorCode × StudentList × Nat :=
  if openOk = false then (ErrorCode.ERR_FILE_IO, st, 0)
  else
    let r := loadLoop alloc (fileLines.flatMap fgetsChunks) 0
      { st with items := [] } 0
    if finalOk = false then (ErrorCode.ERR_MEMORY, r.1, r.2)
    else
      (ErrorCode.SUCCESS,
        { r.1 with modified := false, last_filename := some filename },
        r.2)

/-- First header line written by `save_to_file`. -/
def header1 : List Char := "# Student Record System Data File".data

/-- Second header line written by `save_to_file`. -/
def header2 : List Char := "# Format: roll|marks|name".data

/-- Third header line written by `save_to_file` (record count). -/
def header3 (count : Nat) : List Char :=
  "# Total records: ".data ++ natDigits count

/-- The data line `save_to_file` writes for one record
(`"%d|%d|%s\n"`, a NULL name printed as the empty field). -/
def recordLine (s : Student) : List Char :=
  intToChars s.roll ++ '|' :: intToChars s.marks ++ '|' ::
    (s.name.getD "").data

/-- `save_to_file` (file_io.c): on open failure, ERR_FILE_IO and nothing
written; otherwise write the three headers and one line per record, then
duplicate the filename (oracle `allocOk`) — on failure ERR_MEMORY with the
file already written but the state not updated, on success clear
`modified` and record the filename. The third component is the file
content produced. -/
def save_to_file (openOk allocOk : Bool) (st : StudentList)
    (filename : String) : ErrorCode × StudentList × List (List Char) :=
  if openOk = false then (ErrorCode.ERR_FILE_IO, st, [])
  else
    let lines := header1 :: header2 :: header3 st.items.length ::
      st.items.map recordLine
    if allocOk = false then (ErrorCode.ERR_MEMORY, st, lines)
    else
      (ErrorCode.SUCCESS,
        { st with modified := false, last_filename := some filename },
        lines)

/-- The operations a caller can perform on a roster, with their oracles;
`load` carries the file content it reads. -/
inductive Op where
  | add (s : Student) (allocOk : Bool)
  | remove (index : Nat)
  | modify (index : Nat) (new_roll : Int) (new_name : Option String)
      (new_marks : Int) (allocOk : Bool)
  | sortOp (cmp : Student → Student → Int)
  | save (filename : String) (openOk : Bool) (allocOk : Bool)
  | load (filename : String) (fileLines : List (List Char))
      (openOk : Bool) (alloc : Nat → Bool) (finalOk : Bool)

/-- Apply one operation to a roster, returning the C function's error code
(`sort_students` returns void, reported as SUCCESS). -/
def applyOp (op : Op) (st : StudentList) : ErrorCode × StudentList :=
  match op with
  | .add s a => add_student a st s
  | .remove i => remove_student_by_index st i
  | .modify i r n m a => modify_student a st i r n m
  | .sortOp cmp => (ErrorCode.SUCCESS, sort_students cmp st)
  | .save fn o a =>
    let r := save_to_file o a st fn
    (r.1, r.2.1)
  | .load fn lines o al f =>
    let r := load_from_file o st fn lines al f
    (r.1, r.2.1)

/-- Run a sequence of operations. -/
def runOps (st : StudentList) (ops : List Op) : StudentList :=
  ops.foldl (fun s op => (applyOp op s).2) st

/-- Whether every operation in the sequence returns SUCCESS when applied in
order. -/
def allSucceed : StudentList → List Op → Bool
  | _, [] => true
  | st, op :: rest =>
    decide ((applyOp op st).1 = ErrorCode.SUCCESS) &&
      allSucceed (applyOp op st).2 rest

/-- Whether the operation is an `add_student` or `modify_student` call. -/
def isAddOrModify : Op → Bool
  | .add _ _ => true
  | .modify _ _ _ _ _ => true
  | _ => false

/-- Whether the operation is a `save_to_file` or `load_from_file` call. -/
def isSaveOrLoad : Op → Bool
  | .save _ _ _ => true
  | .load _ _ _ _ _ => true
  | _ => false

/-- The uniqueness invariant: no two records share a roll. -/
def uniqueRolls (l : List Student) : Prop := (l.map Student.roll).Nodup

instance (l : List Student) : Decidable (uniqueRolls l) := by
  unfold uniqueRolls; infer_instance

/-- First-occurrence-wins accumulation of parsed records, using the
program's own duplicate test: a record whose roll is already in `acc` is
dropped, others are appended. -/
def fwGo (acc : List Student) : List Student → List Student
  | [] => acc
  | s :: rest =>
    if (find_index_by_roll acc s.roll).isSome then fwGo acc rest
    else fwGo (acc ++ [s]) rest

/-- The records a tolerant load keeps from a parsed sequence: first
occurrence of each roll wins. -/
def firstWins (l : List Student) : List Student := fwGo [] l

/-- How many records of `l` a first-wins accumulation starting from `acc`
accepts. -/
def fwCount (acc : List Student) : List Student → Nat
  | [] => 0
  | s :: rest =>
    if (find_index_by_roll acc s.roll).isSome then fwCount acc rest
    else fwCount (acc ++ [s]) rest + 1

/-- How many records of the sequence duplicate the roll of an earlier
accepted one (`seen` is the set of already-accepted rolls). -/
def dupCountGo (seen : List Int) : List Student → Nat
  | [] => 0
  | s :: rest =>
    if s.roll ∈ seen then dupCountGo seen rest + 1
    else dupCountGo (s.roll :: seen) rest

/-- Number of duplicate data lines in a parsed sequence (lines counted
against an earlier first occurrence). -/
def dupCount (l : List Student) : Nat := dupCountGo [] l

/-- The record (if any) that `load_from_file` obtains from one stored file
line: comment lines and unparsable lines give `none`. -/
def parsedOf (line : List Char) : Option Student :=
  if line.head? = some '#' then none
  else (parseLine line).map (fun t => ⟨t.1, some t.2.2, t.2.1⟩)

/-- The round-trip claim's side conditions on one record: a present name
with no pipe, no newline and no leading or trailing whitespace (stated as
`trim_inplace` fixing it), a positive roll and marks in [0,100]. -/
def validRecord (s : Student) : Prop :=
  s.name.isSome = true ∧ 0 < s.roll ∧ 0 ≤ s.marks ∧ s.marks ≤ 100 ∧
    '|' ∉ (s.name.getD "").data ∧ '\n' ∉ (s.name.getD "").data ∧
    trim_inplace (s.name.getD "").data = (s.name.getD "").data

instance (s : Student) : Decidable (validRecord s) := by
  unfold validRecord; infer_instance

/-- A roster whose single record has a 1020-character name: its saved data
line is 1024 characters long, one more than `fgets` can deliver in the
program's 1024-byte buffer. -/
def rosterLong : StudentList :=
  { items := [⟨1, some (String.mk (List.replicate 1020 'a')), 0⟩],
    modified := false, last_filename := none }

/-- A single 1028-character stored line that parses as one valid record
(roll 1, marks 5, name containing pipes) but is delivered by `fgets` as two
buffers, the second of which parses as a second valid record. -/
def craftLine : List Char :=
  "1|5|".data ++ List.replicate 1019 'a' ++ "2|7|b".data

/-- A concrete test file: a comment, an empty line, two good data lines,
one malformed line, and one duplicate-roll line. -/
def c4lines : List (List Char) :=
  ["# comment".data, [], "1|50|alice".data, "bad".data, "2|60|bob".data,
    "1|70|dup".data]

/-! Helper lemmas. -/

theorem find_index_eq_none_iff (l : List Student) (r : Int) :
    find_index_by_roll l r = none ↔ ∀ s ∈ l, s.roll ≠ r := by
  induction l with
  | nil => simp [find_index_by_roll]
  | cons s rest ih =>
    simp only [find_index_by_roll, List.mem_cons]
    by_cases h : s.roll = r
    · simp [h]
    · rw [if_neg h]
      cases hfind : find_index_by_roll rest r with
      | some j =>
        simp only [Option.map_some']
        constructor
        · intro hn; exact absurd hn (by simp)
        · intro hall
          have hnone : find_index_by_roll rest r = none :=
            ih.mpr fun t ht => hall t (Or.inr ht)
          rw [hnone] at hfind
          exact Option.noConfusion hfind
      | none =>
        simp only [Option.map_none', true_iff]
        intro t ht
        rcases ht with rfl | ht
        · exact h
        · exact (ih.mp hfind) t ht

theorem find_index_isSome_iff (l : List Student) (r : Int) :
    (find_index_by_roll l r).isSome = true ↔ ∃ s ∈ l, s.roll = r := by
  rw [Option.isSome_iff_ne_none]
  constructor
  · intro h
    by_contra hex
    push_neg at hex
    exact h ((find_index_eq_none_iff l r).mpr hex)
  · intro ⟨s, hs, hr⟩ hn
    exact ((find_index_eq_none_iff l r).mp hn) s hs hr

theorem find_index_eq_some (l : List Student) (r : Int) (i : Nat)
    (h : find_index_by_roll l r = some i) :
    ∃ s, l[i]? = some s ∧ s.roll = r := by
  induction l generalizing i with
  | nil => simp [find_index_by_roll] at h
  | cons t rest ih =>
    by_cases ht : t.roll = r
    · simp only [find_index_by_roll, if_pos ht, Option.some.injEq] at h
      subst h
      exact ⟨t, by simp, ht⟩
    · rw [find_index_by_roll, if_neg ht] at h
      cases hfind : find_index_by_roll rest r with
      | none => rw [hfind] at h; exact Option.noConfusion h
      | some j =>
        rw [hfind] at h
        simp only [Option.map_some', Option.some.injEq] at h
        subst h
        obtain ⟨s, hs, hr⟩ := ih j hfind
        exact ⟨s, by simpa using hs, hr⟩

theorem list_map_set {α β : Type} (l : List α) (i : Nat) (s : α)
    (f : α → β) :
    (l.set i s).map f = (l.map f).set i (f s) := by
  induction l generalizing i with
  | nil => simp
  | cons t rest ih =>
    cases i with
    | zero => simp [List.set]
    | succ j => simp [List.set, ih]

theorem nodup_set_of_not_mem (l : List Int) (i : Nat) (x : Int)
    (hl : l.Nodup) (hx : x ∉ l) : (l.set i x).Nodup := by
  induction l generalizing i with
  | nil => simp
  | cons a rest ih =>
    cases i with
    | zero =>
      simp only [List.set_cons_zero, List.nodup_cons] at hl ⊢
      exact ⟨fun hmem => hx (List.mem_cons_of_mem a hmem), hl.2⟩
    | succ j =>
      simp only [List.set_cons_succ, List.nodup_cons] at hl ⊢
      refine ⟨fun hmem => ?_, ih j hl.2 fun hmem => hx (List.mem_cons_of_mem a hmem)⟩
      rcases List.mem_or_eq_of_mem_set hmem with hmem' | rfl
      · exact hl.1 hmem'
      · exact hx (List.mem_cons_self a rest)

theorem list_set_self {α : Type} (l : List α) (i : Nat) (s : α)
    (h : l[i]? = some s) : l.set i s = l := by
  induction l generalizing i with
  | nil => simp at h
  | cons t rest ih =>
    cases i with
    | zero =>
      simp only [List.getElem?_cons_zero, Option.some.injEq] at h
      simp [h]
    | succ j =>
      simp only [List.getElem?_cons_succ] at h
      simp [List.set, ih j h]

theorem add_student_preserves_uniqueRolls (a : Bool) (st : StudentList)
    (s : Student) (h : uniqueRolls st.items) :
    uniqueRolls (add_student a st s).2.items := by
  unfold add_student
  by_cases hf : (find_index_by_roll st.items s.roll).isSome = true
  · simpa [hf] using h
  · rw [if_neg hf]
    cases a with
    | false => simpa using h
    | true =>
      simp only [if_pos rfl]
      have hnone : find_index_by_roll st.items s.roll = none := by
        cases hfind : find_index_by_roll st.items s.roll with
        | none => rfl
        | some j => rw [hfind] at hf; simp at hf
      have hnotmem : s.roll ∉ st.items.map Student.roll := by
        intro hmem
        obtain ⟨t, ht, hr⟩ := List.mem_map.mp hmem
        exact ((find_index_eq_none_iff st.items s.roll).mp hnone) t ht hr
      unfold uniqueRolls at h ⊢
      show ((st.items ++ [s]).map Student.roll).Nodup
      simp only [List.map_append, List.map_cons, List.map_nil]
      exact ((List.perm_append_singleton s.roll
        (st.items.map Student.roll)).nodup_iff).mpr
        (List.nodup_cons.mpr ⟨hnotmem, h⟩)

theorem modify_student_preserves_uniqueRolls (a : Bool) (st : StudentList)
    (index : Nat) (new_roll : Int) (new_name : Option String)
    (new_marks : Int) (h : uniqueRolls st.items) :
    uniqueRolls (modify_student a st index new_roll new_name
      new_marks).2.items := by
  unfold modify_student
  cases hidx : st.items[index]? with
  | none => simpa using h
  | some cur =>
    simp only
    by_cases hroll : new_roll = cur.roll
    · -- the roll is unchanged, so the multiset of rolls is unchanged
      have hset : ∀ nm, (st.items.set index
          { roll := new_roll, name := nm, marks := new_marks }).map
            Student.roll = st.items.map Student.roll := by
        intro nm
        rw [list_map_set]
        exact list_set_self (st.items.map Student.roll) index new_roll
          (by rw [List.getElem?_map, hidx]; simp [hroll])
      rw [if_neg (by simp [hroll])]
      cases a with
      | true => simpa [uniqueRolls, hset] using h
      | false => simpa [uniqueRolls, hset] using h
    · cases hfind : find_index_by_roll st.items new_roll with
      | some e =>
        by_cases he : e = index
        · -- the first record carrying new_roll is the modified one itself,
          -- impossible since its current roll differs from new_roll
          exfalso
          obtain ⟨t, hti, htr⟩ := find_index_eq_some st.items new_roll e hfind
          rw [he, hidx] at hti
          cases hti
          exact hroll htr.symm
        · simpa [hroll, hfind, bne_iff_ne, he] using h
      | none =>
        have hnotmem : new_roll ∉ st.items.map Student.roll := by
          intro hmem
          obtain ⟨t, ht, hr⟩ := List.mem_map.mp hmem
          exact ((find_index_eq_none_iff st.items new_roll).mp hfind) t ht hr
        have hset : ∀ nm, uniqueRolls (st.items.set index
            { roll := new_roll, name := nm, marks := new_marks }) := by
          intro nm
          unfold uniqueRolls
          rw [list_map_set]
          exact nodup_set_of_not_mem _ index new_roll h hnotmem
        rw [if_neg (by simp [hroll, hfind])]
        cases a with
        | true => simpa using hset _
        | false => simpa using hset _

/-! Per-operation facts about the `modified` flag, used for the
modified-flag lifecycle claim. -/

theorem add_student_modified_cases (a : Bool) (st : StudentList)
    (s : Student) :
    ((add_student a st s).1 = ErrorCode.SUCCESS ∧
        (add_student a st s).2.modified = true) ∨
      (add_student a st s).2 = st := by
  unfold add_student
  by_cases hf : (find_index_by_roll st.items s.roll).isSome = true
  · simp [hf]
  · cases a <;> simp [hf]

theorem remove_student_modified_cases (st : StudentList) (index : Nat) :
    ((remove_student_by_index st index).1 = ErrorCode.SUCCESS ∧
        (remove_student_by_index st index).2.modified = true) ∨
      (remove_student_by_index st index).2 = st := by
  unfold remove_student_by_index
  by_cases hi : index < st.items.length <;> simp [hi]

theorem modify_student_modified_cases (a : Bool) (st : StudentList)
    (index : Nat) (new_roll : Int) (new_name : Option String)
    (new_marks : Int) :
    ((modify_student a st index new_roll new_name new_marks).1 =
          ErrorCode.SUCCESS ∧
        (modify_student a st index new_roll new_name
          new_marks).2.modified = true) ∨
      (modify_student a st index new_roll new_name new_marks).2.modified =
        st.modified := by
  unfold modify_student
  cases hidx : st.items[index]? with
  | none => simp
  | some cur =>
    simp only
    by_cases hc : (if new_roll = cur.roll then false
        else
          match find_index_by_roll st.items new_roll with
          | some e => e != index
          | none => false) = true
    · rw [if_pos hc]; simp
    · rw [if_neg hc]; cases a <;> simp

theorem sort_students_small (cmp : Student → Student → Int)
    (st : StudentList) (h : st.items.length < 2) :
    sort_students cmp st = st := by
  unfold sort_students
  rw [if_pos h]

theorem sort_students_large_modified (cmp : Student → Student → Int)
    (st : StudentList) (h : 2 ≤ st.items.length) :
    (sort_students cmp st).modified = true := by
  unfold sort_students
  rw [if_neg (by omega)]

theorem save_to_file_modified_cases (openOk allocOk : Bool)
    (st : StudentList) (fn : String) :
    ((save_to_file openOk allocOk st fn).1 = ErrorCode.SUCCESS ∧
        (save_to_file openOk allocOk st fn).2.1.modified = false) ∨
      (save_to_file openOk allocOk st fn).2.1 = st := by
  unfold save_to_file
  cases openOk <;> cases allocOk <;> simp

theorem processBuffer_modified_true (a : Bool) (st : StudentList)
    (loaded : Nat) (buf : List Char) (h : st.modified = true) :
    (processBuffer a st loaded buf).1.modified = true := by
  unfold processBuffer
  by_cases hh : (buf.head? = some '#' || buf.head? = some '\n') = true
  · simpa [hh]
  · rw [if_neg hh]
    cases parseLine (buf.takeWhile (· ≠ '\n')) with
    | none => simpa
    | some t =>
      obtain ⟨roll, marks, nm⟩ := t
      simp only
      cases hc : create_student roll (some nm) marks a with
      | none => simpa
      | some s =>
        simp only
        rcases hadd : add_student true st s with ⟨err, st'⟩
        rcases add_student_modified_cases true st s with ⟨h1, h2⟩ | heq
        · rw [hadd] at h1 h2
          cases err <;> simp_all
        · rw [hadd] at heq
          cases err <;> simp_all

theorem loadLoop_modified_true (alloc : Nat → Bool)
    (bufs : List (List Char)) (idx : Nat) (st : StudentList) (loaded : Nat)
    (h : st.modified = true) :
    (loadLoop alloc bufs idx st loaded).1.modified = true := by
  induction bufs generalizing idx st loaded with
  | nil => simpa [loadLoop]
  | cons buf rest ih =>
    exact ih (idx + 1) _ _ (processBuffer_modified_true (alloc idx) st
      loaded buf h)

theorem load_from_file_modified_cases (openOk : Bool) (st : StudentList)
    (fn : String) (fileLines : List (List Char)) (alloc : Nat → Bool)
    (finalOk : Bool) (h : st.modified = true) :
    ((load_from_file openOk st fn fileLines alloc finalOk).1 =
          ErrorCode.SUCCESS ∧
        (load_from_file openOk st fn fileLines alloc
          finalOk).2.1.modified = false) ∨
      (load_from_file openOk st fn fileLines alloc
        finalOk).2.1.modified = true := by
  unfold load_from_file
  cases openOk with
  | false => right; simpa
  | true =>
    cases finalOk with
    | false =>
      right
      simpa using loadLoop_modified_true alloc
        (fileLines.flatMap fgetsChunks) 0 { st with items := [] } 0
        (by simpa)
    | true => left; simp

theorem applyOp_preserves_uniqueRolls (op : Op) (st : StudentList)
    (hop : isAddOrModify op = true) (h : uniqueRolls st.items) :
    uniqueRolls (applyOp op st).2.items := by
  cases op with
  | add s a => exact add_student_preserves_uniqueRolls a st s h
  | modify i r n m a =>
    exact modify_student_preserves_uniqueRolls a st i r n m h
  | remove i => simp [isAddOrModify] at hop
  | sortOp c => simp [isAddOrModify] at hop
  | save fn o a => simp [isAddOrModify] at hop
  | load fn lines o al f => simp [isAddOrModify] at hop

/-- C6: for every roster and every record whose roll equals the roll of
some record already in the roster, `add_student` returns ERR_DUPLICATE and
the roster is completely unchanged (same records, same order, same
`modified` flag, same `last_filename`). -/
theorem c6_duplicate_rejection (st : StudentList) (s : Student)
    (allocOk : Bool) (h : ∃ t ∈ st.items, t.roll = s.roll) :
    add_student allocOk st s = (ErrorCode.ERR_DUPLICATE, st) := by
  unfold add_student
  rw [if_pos ((find_index_isSome_iff st.items s.roll).mpr h)]

/-- Witness for C6 at a concrete roster. -/
theorem c6_duplicate_rejection_witness :
    (∃ t ∈ ([⟨1, some "A", 50⟩] : List Student), t.roll = (1 : Int)) ∧
      add_student true ⟨[⟨1, some "A", 50⟩], false, none⟩ ⟨1, some "B", 60⟩ =
        (ErrorCode.ERR_DUPLICATE, ⟨[⟨1, some "A", 50⟩], false, none⟩) :=
  ⟨by decide,
    c6_duplicate_rejection ⟨[⟨1, some "A", 50⟩], false, none⟩
      ⟨1, some "B", 60⟩ true (by decide)⟩

/-- C3 (code bug): `modify_student` is not atomic on allocation failure.
On the roster [(roll 1, "A", 50)], modifying index 0 to (2, "B", 60) with
the `safe_strdup` of the new name failing returns ERR_MEMORY, yet the
record's roll and marks have already been replaced and its name destroyed
(left NULL) — the roster is not "completely unchanged" on this error. -/
theorem c3_modify_alloc_failure_mutates :
    modify_student false ⟨[⟨1, some "A", 50⟩], false, none⟩ 0 2 (some "B")
        60 =
      (ErrorCode.ERR_MEMORY, ⟨[⟨2, none, 60⟩], false, none⟩) ∧
    (⟨[⟨2, none, 60⟩], false, none⟩ : StudentList) ≠
      ⟨[⟨1, some "A", 50⟩], false, none⟩ := by
  constructor
  · rfl
  · decide

/-- C10: a successful `save_to_file` leaves the record sequence untouched:
the items (size, order, and every field of every record) are identical
before and after, and the only state changes are `modified := false` and
`last_filename := saved path`. -/
theorem c10_save_frame (st : StudentList) (fn : String)
    (openOk allocOk : Bool)
    (h : (save_to_file openOk allocOk st fn).1 = ErrorCode.SUCCESS) :
    (save_to_file openOk allocOk st fn).2.1.items = st.items ∧
      (save_to_file openOk allocOk st fn).2.1.modified = false ∧
      (save_to_file openOk allocOk st fn).2.1.last_filename = some fn := by
  unfold save_to_file at h ⊢
  cases openOk with
  | false => simp at h
  | true =>
    cases allocOk with
    | false => simp at h
    | true => simp

/-- Witness for C10 at a concrete roster and path. -/
theorem c10_save_frame_witness :
    (save_to_file true true ⟨[⟨1, some "A", 50⟩], true, none⟩ "f").1 =
        ErrorCode.SUCCESS ∧
      ((save_to_file true true ⟨[⟨1, some "A", 50⟩], true, none⟩
            "f").2.1.items = [⟨1, some "A", 50⟩] ∧
        (save_to_file true true ⟨[⟨1, some "A", 50⟩], true, none⟩
            "f").2.1.modified = false ∧
        (save_to_file true true ⟨[⟨1, some "A", 50⟩], true, none⟩
            "f").2.1.last_filename = some "f") :=
  ⟨by decide, c10_save_frame ⟨[⟨1, some "A", 50⟩], true, none⟩ "f" true true
    (by decide)⟩

/-- C8 counterexample: constructing a record from the empty-string name
does not yield "Unnamed" — `create_student` keeps the empty string (only a
NULL name pointer is defaulted). -/
theorem c8_name_default_counterexample :
    (create_student 5 (some "") 77 true).map Student.name ≠
      some (some "Unnamed") := by
  decide

/-- C8 (amended): only an absent (NULL) name defaults to "Unnamed":
`create_student` with a NULL name stores "Unnamed", `create_student` with
the empty-string name stores the empty string, and `load_from_file` of a
data line whose name field is empty or all whitespace produces a record
whose name is the empty string (the "Unnamed" substitution for empty
interactive input happens in the prompt layer, ui.c, not here). -/
theorem c8_name_default_amended :
    (∀ (roll marks : Int),
      create_student roll none marks true =
        some ⟨roll, some "Unnamed", marks⟩) ∧
    (∀ (roll marks : Int) (nm : String),
      create_student roll (some nm) marks true =
        some ⟨roll, some nm, marks⟩) ∧
    (load_from_file true init_student_list "f" ["1|50|".data]
          (fun _ => true) true).2.1.items = [⟨1, some "", 50⟩] ∧
    (load_from_file true init_student_list "f" ["2|60|   ".data]
          (fun _ => true) true).2.1.items = [⟨2, some "", 60⟩] := by
  refine ⟨fun roll marks => rfl, fun roll marks nm => ?_, by decide, by decide⟩
  simp [create_student]

/-- C1: starting from an empty roster, after any sequence of `add_student`
and `modify_student` calls, each of which returns SUCCESS, no two records
in the roster have equal roll values. -/
theorem c1_uniqueness_invariant (ops : List Op)
    (hops : ∀ op ∈ ops, isAddOrModify op = true)
    (_hsucc : allSucceed init_student_list ops = true) :
    uniqueRolls (runOps init_student_list ops).items := by
  have main : ∀ (l : List Op) (st : StudentList),
      (∀ op ∈ l, isAddOrModify op = true) → uniqueRolls st.items →
        uniqueRolls (runOps st l).items := by
    intro l
    induction l with
    | nil => intro st _ h; simpa [runOps]
    | cons op rest ih =>
      intro st hl h
      have h1 : uniqueRolls (applyOp op st).2.items :=
        applyOp_preserves_uniqueRolls op st (hl op (by simp)) h
      simpa [runOps] using
        ih (applyOp op st).2 (fun o ho => hl o (by simp [ho])) h1
  exact main ops init_student_list hops (by simp [init_student_list, uniqueRolls])

/-- Witness for C1: a concrete successful add/add/modify sequence from the
empty roster. -/
theorem c1_uniqueness_invariant_witness :
    (∀ op ∈ ([Op.add ⟨1, some "A", 50⟩ true, Op.add ⟨2, some "B", 60⟩ true,
        Op.modify 0 3 (some "C") 70 true] : List Op),
      isAddOrModify op = true) ∧
    allSucceed init_student_list
      [Op.add ⟨1, some "A", 50⟩ true, Op.add ⟨2, some "B", 60⟩ true,
        Op.modify 0 3 (some "C") 70 true] = true ∧
    uniqueRolls (runOps init_student_list
      [Op.add ⟨1, some "A", 50⟩ true, Op.add ⟨2, some "B", 60⟩ true,
        Op.modify 0 3 (some "C") 70 true]).items :=
  ⟨by decide, by decide,
    c1_uniqueness_invariant
      [Op.add ⟨1, some "A", 50⟩ true, Op.add ⟨2, some "B", 60⟩ true,
        Op.modify 0 3 (some "C") 70 true] (by decide) (by decide)⟩

/-- C7 counterexample: the claim says `sort_students` on any roster —
including one with 0 or 1 elements — sets the modified flag; but sorting
the empty roster (flag initially false) leaves the flag false, because
`sort_students` returns before touching it when `size < 2`. -/
theorem c7_modified_counterexample :
    (sort_students cmp_marks_asc init_student_list).modified = false := by
  decide

/-- C7 (amended): every successful `add_student`,
`remove_student_by_index` and `modify_student` sets the modified flag, and
so does `sort_students` on a roster of two or more records; but
`sort_students` on 0 or 1 records returns early and leaves the state (its
flag included) unchanged. The flag becomes false only through a successful
`save_to_file` or `load_from_file`: any operation that turns the flag from
true to false is a save or load that returned SUCCESS. -/
theorem c7_modified_amended :
    (∀ (a : Bool) (st : StudentList) (s : Student),
      (add_student a st s).1 = ErrorCode.SUCCESS →
        (add_student a st s).2.modified = true) ∧
    (∀ (st : StudentList) (i : Nat),
      (remove_student_by_index st i).1 = ErrorCode.SUCCESS →
        (remove_student_by_index st i).2.modified = true) ∧
    (∀ (a : Bool) (st : StudentList) (i : Nat) (r : Int)
        (n : Option String) (m : Int),
      (modify_student a st i r n m).1 = ErrorCode.SUCCESS →
        (modify_student a st i r n m).2.modified = true) ∧
    (∀ (cmp : Student → Student → Int) (st : StudentList),
      2 ≤ st.items.length → (sort_students cmp st).modified = true) ∧
    (∀ (cmp : Student → Student → Int) (st : StudentList),
      st.items.length < 2 → sort_students cmp st = st) ∧
    (∀ (op : Op) (st : StudentList),
      st.modified = true → (applyOp op st).2.modified = false →
        isSaveOrLoad op = true ∧ (applyOp op st).1 = ErrorCode.SUCCESS) := by
  refine ⟨?_, ?_, ?_, sort_students_large_modified, sort_students_small, ?_⟩
  · intro a st s h
    unfold add_student at h ⊢
    by_cases hf : (find_index_by_roll st.items s.roll).isSome = true
    · simp [hf] at h
    · cases a with
      | true => simp [hf]
      | false => simp [hf] at h
  · intro st i h
    unfold remove_student_by_index at h ⊢
    by_cases hi : i < st.items.length
    · simp [hi]
    · simp [hi] at h
  · intro a st i r n m h
    unfold modify_student at h ⊢
    cases hidx : st.items[i]? with
    | none => simp [hidx] at h
    | some cur =>
      rw [hidx] at h
      dsimp only at h ⊢
      by_cases hc : (if r = cur.roll then false
          else
            match find_index_by_roll st.items r with
            | some e => e != i
            | none => false) = true
      · rw [if_pos hc] at h; simp at h
      · rw [if_neg hc] at h ⊢
        cases a with
        | true => simp
        | false => simp at h
  · intro op st hm hf
    cases op with
    | add s a =>
      rcases add_student_modified_cases a st s with ⟨_, h2⟩ | heq
      · rw [show applyOp (Op.add s a) st = add_student a st s from rfl] at hf
        rw [h2] at hf; cases hf
      · rw [show applyOp (Op.add s a) st = add_student a st s from rfl,
          heq] at hf
        rw [hm] at hf; cases hf
    | remove i =>
      rcases remove_student_modified_cases st i with ⟨_, h2⟩ | heq
      · rw [show applyOp (Op.remove i) st = remove_student_by_index st i
          from rfl] at hf
        rw [h2] at hf; cases hf
      · rw [show applyOp (Op.remove i) st = remove_student_by_index st i
          from rfl, heq] at hf
        rw [hm] at hf; cases hf
    | modify i r n m a =>
      rcases modify_student_modified_cases a st i r n m with ⟨_, h2⟩ | heq
      · rw [show applyOp (Op.modify i r n m a) st =
          modify_student a st i r n m from rfl] at hf
        rw [h2] at hf; cases hf
      · rw [show applyOp (Op.modify i r n m a) st =
          modify_student a st i r n m from rfl, heq] at hf
        rw [hm] at hf; cases hf
    | sortOp cmp =>
      rcases Nat.lt_or_ge st.items.length 2 with hlen | hlen
      · rw [show applyOp (Op.sortOp cmp) st =
          (ErrorCode.SUCCESS, sort_students cmp st) from rfl] at hf
        rw [sort_students_small cmp st hlen] at hf
        rw [hm] at hf; cases hf
      · rw [show applyOp (Op.sortOp cmp) st =
          (ErrorCode.SUCCESS, sort_students cmp st) from rfl] at hf
        rw [sort_students_large_modified cmp st hlen] at hf; cases hf
    | save fn o a =>
      rcases save_to_file_modified_cases o a st fn with ⟨h1, _⟩ | heq
      · exact ⟨rfl, h1⟩
      · rw [show applyOp (Op.save fn o a) st =
          ((save_to_file o a st fn).1, (save_to_file o a st fn).2.1)
          from rfl] at hf
        simp only at hf
        rw [heq, hm] at hf; cases hf
    | load fn lines o al fk =>
      rcases load_from_file_modified_cases o st fn lines al fk hm with
        ⟨h1, _⟩ | htrue
      · exact ⟨rfl, h1⟩
      · rw [show applyOp (Op.load fn lines o al fk) st =
          ((load_from_file o st fn lines al fk).1,
            (load_from_file o st fn lines al fk).2.1) from rfl] at hf
        simp only at hf
        rw [htrue] at hf; cases hf

/-- Witness for C7 (amended): a concrete successful add sets the flag. -/
theorem c7_modified_amended_witness :
    (add_student true init_student_list ⟨1, some "A", 50⟩).1 =
        ErrorCode.SUCCESS ∧
      (add_student true init_student_list ⟨1, some "A", 50⟩).2.modified =
        true :=
  ⟨by decide,
    c7_modified_amended.1 true init_student_list ⟨1, some "A", 50⟩
      (by decide)⟩

theorem statsFold_spec (l : List Student) (p f : Nat) (mn mx tot : Int) :
    l.foldl statsFold (p, f, mn, mx, tot) =
      (p + (l.filter (fun s => PASS_THRESHOLD ≤ s.marks)).length,
       f + (l.filter (fun s => ¬PASS_THRESHOLD ≤ s.marks)).length,
       (l.map Student.marks).foldl min mn,
       (l.map Student.marks).foldl max mx,
       tot + (l.map Student.marks).sum) := by
  induction l generalizing p f mn mx tot with
  | nil => simp
  | cons s rest ih =>
    rw [List.foldl_cons, List.map_cons, List.foldl_cons, List.foldl_cons]
    have hmin : (if s.marks < mn then s.marks else mn) = min mn s.marks := by
      rcases lt_or_ge s.marks mn with h | h
      · rw [if_pos h, min_eq_right (le_of_lt h)]
      · rw [if_neg (not_lt.mpr h), min_eq_left h]
    have hmax : (if s.marks > mx then s.marks else mx) = max mx s.marks := by
      rcases lt_or_ge mx s.marks with h | h
      · rw [if_pos h, max_eq_right (le_of_lt h)]
      · rw [if_neg (not_lt.mpr h), max_eq_left h]
    by_cases hp : PASS_THRESHOLD ≤ s.marks
    · have hnl : ¬s.marks < PASS_THRESHOLD := not_lt.mpr hp
      rw [show statsFold (p, f, mn, mx, tot) s =
          (p + 1, f, min mn s.marks, max mx s.marks, tot + s.marks) by
        unfold statsFold
        rw [if_pos hp, if_pos hp, hmin, hmax]]
      rw [ih]
      simp [hp, hnl, List.filter_cons]
      omega
    · have hl : s.marks < PASS_THRESHOLD := not_le.mp hp
      rw [show statsFold (p, f, mn, mx, tot) s =
          (p, f + 1, min mn s.marks, max mx s.marks, tot + s.marks) by
        unfold statsFold
        rw [if_neg hp, if_neg hp, hmin, hmax]]
      rw [ih]
      simp [hp, hl, List.filter_cons]
      omega

theorem foldl_min_le (l : List Int) (a : Int) :
    l.foldl min a ≤ a ∧ ∀ x ∈ l, l.foldl min a ≤ x := by
  induction l generalizing a with
  | nil => simp
  | cons b rest ih =>
    rw [List.foldl_cons]
    refine ⟨le_trans (ih (min a b)).1 (min_le_left a b), ?_⟩
    intro x hx
    rcases List.mem_cons.mp hx with rfl | hx
    · exact le_trans (ih (min a x)).1 (min_le_right a x)
    · exact (ih (min a b)).2 x hx

theorem foldl_min_mem (l : List Int) (a : Int) :
    l.foldl min a = a ∨ l.foldl min a ∈ l := by
  induction l generalizing a with
  | nil => simp
  | cons b rest ih =>
    rw [List.foldl_cons]
    rcases ih (min a b) with h | h
    · rcases min_cases a b with ⟨hm, _⟩ | ⟨hm, _⟩
      · left; rw [h, hm]
      · right; rw [h, hm]; exact List.mem_cons_self b rest
    · right; exact List.mem_cons_of_mem b h

theorem foldl_max_ge (l : List Int) (a : Int) :
    a ≤ l.foldl max a ∧ ∀ x ∈ l, x ≤ l.foldl max a := by
  induction l generalizing a with
  | nil => simp
  | cons b rest ih =>
    rw [List.foldl_cons]
    refine ⟨le_trans (le_max_left a b) (ih (max a b)).1, ?_⟩
    intro x hx
    rcases List.mem_cons.mp hx with rfl | hx
    · exact le_trans (le_max_right a x) (ih (max a x)).1
    · exact (ih (max a b)).2 x hx

theorem foldl_max_mem (l : List Int) (a : Int) :
    l.foldl max a = a ∨ l.foldl max a ∈ l := by
  induction l generalizing a with
  | nil => simp
  | cons b rest ih =>
    rw [List.foldl_cons]
    rcases ih (max a b) with h | h
    · rcases max_cases a b with ⟨hm, _⟩ | ⟨hm, _⟩
      · left; rw [h, hm]
      · right; rw [h, hm]; exact List.mem_cons_self b rest
    · right; exact List.mem_cons_of_mem b h

theorem filter_marks_split (l : List Student) :
    (l.filter (fun s => PASS_THRESHOLD ≤ s.marks)).length +
      (l.filter (fun s => ¬PASS_THRESHOLD ≤ s.marks)).length = l.length := by
  induction l with
  | nil => simp
  | cons s rest ih =>
    by_cases hp : PASS_THRESHOLD ≤ s.marks
    · have hnl : ¬s.marks < PASS_THRESHOLD := not_lt.mpr hp
      simp [List.filter_cons, hp, hnl] at ih ⊢
      omega
    · have hl : s.marks < PASS_THRESHOLD := not_le.mp hp
      simp [List.filter_cons, hp, hl] at ih ⊢
      omega

/-- C9: `display_statistics` reports "no data" (modelled as `none`) exactly
on the empty roster and computes nothing there; on every non-empty roster
whose records carry marks in [0,100] (the roster validity invariant) it
reports count = roster size, the arithmetic mean of the marks, the true
minimum and maximum of the marks, pass count = number of records with
marks ≥ PASS_THRESHOLD (40), fail count = count - pass count, and pass
rate = pass count / count as a percentage. -/
theorem c9_statistics :
    (∀ st : StudentList, st.items = [] → display_statistics st = none) ∧
    (∀ st : StudentList, st.items ≠ [] →
      (∀ s ∈ st.items, 0 ≤ s.marks ∧ s.marks ≤ 100) →
      ∃ r, display_statistics st = some r ∧
        r.count = st.items.length ∧
        r.avg = ((st.items.map Student.marks).sum : Rat) /
          (st.items.length : Rat) ∧
        r.min_marks ∈ st.items.map Student.marks ∧
        (∀ m ∈ st.items.map Student.marks, r.min_marks ≤ m) ∧
        r.max_marks ∈ st.items.map Student.marks ∧
        (∀ m ∈ st.items.map Student.marks, m ≤ r.max_marks) ∧
        r.pass_count =
          (st.items.filter (fun s => PASS_THRESHOLD ≤ s.marks)).length ∧
        r.fail_count = st.items.length - r.pass_count ∧
        r.pass_rate = (r.pass_count : Rat) / (st.items.length : Rat) * 100) := by
  constructor
  · intro st h
    unfold display_statistics
    rw [if_pos (by rw [h]; rfl)]
  · intro st hne hbound
    have hlen : st.items.length ≠ 0 := by
      intro h0; exact hne (List.length_eq_zero.mp h0)
    refine ⟨_, by unfold display_statistics; rw [if_neg hlen], ?_⟩
    rw [statsFold_spec]
    dsimp only
    obtain ⟨s0, hs0⟩ := List.exists_mem_of_ne_nil st.items hne
    have hm0 : s0.marks ∈ st.items.map Student.marks :=
      List.mem_map.mpr ⟨s0, hs0, rfl⟩
    refine ⟨rfl, by push_cast; ring_nf, ?_, ?_, ?_, ?_, by simp, ?_, by simp⟩
    · -- the computed minimum is one of the marks
      rcases foldl_min_mem (st.items.map Student.marks) 100 with h | h
      · have h1 := (foldl_min_le (st.items.map Student.marks) 100).2
          s0.marks hm0
        have h2 : s0.marks ≤ 100 := (hbound s0 hs0).2
        rw [h] at h1 ⊢
        have heqm : s0.marks = 100 := le_antisymm h2 h1
        exact heqm ▸ hm0
      · exact h
    · exact (foldl_min_le (st.items.map Student.marks) 100).2
    · -- the computed maximum is one of the marks
      rcases foldl_max_mem (st.items.map Student.marks) 0 with h | h
      · have h1 := (foldl_max_ge (st.items.map Student.marks) 0).2
          s0.marks hm0
        have h2 : 0 ≤ s0.marks := (hbound s0 hs0).1
        rw [h] at h1 ⊢
        have heqm : s0.marks = 0 := le_antisymm h1 h2
        exact heqm ▸ hm0
      · exact h
    · exact (foldl_max_ge (st.items.map Student.marks) 0).2
    · -- fail count is the complement of pass count
      have hsplit := filter_marks_split st.items
      simp only [Nat.zero_add]
      omega

/-- Witness for C9 at the spec's own example roster
[(1,"A",90),(2,"B",30),(3,"C",40)]. -/
theorem c9_statistics_witness :
    (([⟨1, some "A", 90⟩, ⟨2, some "B", 30⟩, ⟨3, some "C", 40⟩] :
        List Student) ≠ []) ∧
    (∀ s ∈ ([⟨1, some "A", 90⟩, ⟨2, some "B", 30⟩, ⟨3, some "C", 40⟩] :
        List Student), 0 ≤ s.marks ∧ s.marks ≤ 100) ∧
    (∃ r, display_statistics
        ⟨[⟨1, some "A", 90⟩, ⟨2, some "B", 30⟩, ⟨3, some "C", 40⟩], false,
          none⟩ = some r ∧
      r.count = 3 ∧ r.avg = 160 / 3 ∧ r.min_marks = 30 ∧ r.max_marks = 90 ∧
      r.pass_count = 2 ∧ r.fail_count = 1 ∧ r.pass_rate = 2 / 3 * 100) := by
  refine ⟨by decide, by decide, ?_⟩
  obtain ⟨r, hr, -⟩ := c9_statistics.2
    ⟨[⟨1, some "A", 90⟩, ⟨2, some "B", 30⟩, ⟨3, some "C", 40⟩], false, none⟩
    (by decide) (by decide)
  refine ⟨r, hr, ?_⟩
  have : r = ⟨3, 160 / 3, 30, 90, 2, 1, 2 / 3 * 100⟩ := by
    have hval : display_statistics
        ⟨[⟨1, some "A", 90⟩, ⟨2, some "B", 30⟩, ⟨3, some "C", 40⟩], false,
          none⟩ = some ⟨3, 160 / 3, 30, 90, 2, 1, 2 / 3 * 100⟩ := by
      norm_num [display_statistics, statsFold, PASS_THRESHOLD,
        StatsResult.mk.injEq]
    rw [hval] at hr
    exact (Option.some.injEq _ _).mp hr.symm
  rw [this]
  exact ⟨rfl, rfl, rfl, rfl, rfl, rfl, rfl⟩

/-! Decimal digit printing and parsing round-trip. -/

theorem natDigitsAux_fuel_irrel (f1 : Nat) :
    ∀ (f2 n : Nat), n < f1 → n < f2 →
      natDigitsAux n f1 = natDigitsAux n f2 := by
  induction f1 with
  | zero => intro f2 n h1; omega
  | succ g1 ih =>
    intro f2 n h1 h2
    cases f2 with
    | zero => omega
    | succ g2 =>
      show natDigitsAux n (g1 + 1) = natDigitsAux n (g2 + 1)
      unfold natDigitsAux
      by_cases hn : n < 10
      · rw [if_pos hn, if_pos hn]
      · rw [if_neg hn, if_neg hn]
        have hd : n / 10 < n := Nat.div_lt_self (by omega) (by omega)
        rw [ih g2 (n / 10) (by omega) (by omega)]

theorem natDigits_small (n : Nat) (h : n < 10) :
    natDigits n = [Nat.digitChar n] := by
  unfold natDigits natDigitsAux
  rw [if_pos h]

theorem natDigits_large (n : Nat) (h : 10 ≤ n) :
    natDigits n = natDigits (n / 10) ++ [Nat.digitChar (n % 10)] := by
  unfold natDigits
  show natDigitsAux n (n + 1) = _
  rw [show natDigitsAux n (n + 1) =
      if n < 10 then [Nat.digitChar n]
      else natDigitsAux (n / 10) n ++ [Nat.digitChar (n % 10)] from rfl]
  rw [if_neg (by omega)]
  have hd : n / 10 < n := Nat.div_lt_self (by omega) (by omega)
  rw [natDigitsAux_fuel_irrel n (n / 10 + 1) (n / 10) hd (by omega)]

theorem digitChar_facts (d : Nat) (h : d < 10) :
    (Nat.digitChar d).isDigit = true ∧
      isSpaceChar (Nat.digitChar d) = false ∧
      Nat.digitChar d ≠ '|' ∧ Nat.digitChar d ≠ '\n' ∧
      Nat.digitChar d ≠ '#' ∧ Nat.digitChar d ≠ '-' ∧
      Nat.digitChar d ≠ '+' ∧ (Nat.digitChar d).toNat - 48 = d := by
  interval_cases d <;> decide

theorem natDigits_all_digits (n : Nat) :
    ∀ c ∈ natDigits n, ∃ d, d < 10 ∧ c = Nat.digitChar d := by
  induction n using Nat.strong_induction_on with
  | _ n ih =>
    by_cases h : n < 10
    · rw [natDigits_small n h]
      intro c hc
      rw [List.mem_singleton] at hc
      exact ⟨n, h, hc⟩
    · rw [natDigits_large n (by omega)]
      intro c hc
      rcases List.mem_append.mp hc with hc | hc
      · exact ih (n / 10) (Nat.div_lt_self (by omega) (by omega)) c hc
      · rw [List.mem_singleton] at hc
        exact ⟨n % 10, Nat.mod_lt n (by omega), hc⟩

theorem natDigits_ne_nil (n : Nat) : natDigits n ≠ [] := by
  by_cases h : n < 10
  · rw [natDigits_small n h]; simp
  · rw [natDigits_large n (by omega)]; simp

theorem parseDigits_append_singleton (l : List Char) (c : Char) :
    parseDigits (l ++ [c]) = parseDigits l * 10 + (c.toNat - 48) := by
  unfold parseDigits
  rw [List.foldl_append]
  rfl

theorem parseDigits_natDigits (n : Nat) :
    parseDigits (natDigits n) = n := by
  induction n using Nat.strong_induction_on with
  | _ n ih =>
    by_cases h : n < 10
    · rw [natDigits_small n h]
      show parseDigits ([] ++ [Nat.digitChar n]) = n
      rw [parseDigits_append_singleton]
      have := (digitChar_facts n h).2.2.2.2.2.2.2
      unfold parseDigits
      simpa using this
    · rw [natDigits_large n (by omega), parseDigits_append_singleton]
      rw [ih (n / 10) (Nat.div_lt_self (by omega) (by omega))]
      have := (digitChar_facts (n % 10) (Nat.mod_lt n (by omega))).2.2.2.2.2.2.2
      rw [this]
      omega

theorem dropWhile_of_head_false {p : Char → Bool} (c : Char)
    (l : List Char) (h : p c = false) :
    (c :: l).dropWhile p = c :: l := by
  rw [List.dropWhile_cons, h]
  simp

theorem takeWhile_of_all_true {p : Char → Bool} (l : List Char)
    (h : ∀ c ∈ l, p c = true) : l.takeWhile p = l := by
  induction l with
  | nil => rfl
  | cons c rest ih =>
    rw [List.takeWhile_cons, h c (by simp)]
    simp only [if_true]
    rw [ih fun x hx => h x (by simp [hx])]

theorem strtolInt_natDigits (n : Nat) :
    strtolInt (natDigits n) = (n : Int) := by
  have hall := natDigits_all_digits n
  cases hnd : natDigits n with
  | nil => exact absurd hnd (natDigits_ne_nil n)
  | cons c rest =>
    obtain ⟨d, hd, hc⟩ := hall c (by rw [hnd]; simp)
    have hfacts := digitChar_facts d hd
    unfold strtolInt
    rw [dropWhile_of_head_false c rest (by rw [hc]; exact hfacts.2.1)]
    dsimp only
    rw [if_neg (by rw [hc]; exact hfacts.2.2.2.2.2.1),
      if_neg (by rw [hc]; exact hfacts.2.2.2.2.2.2.1)]
    rw [takeWhile_of_all_true (c :: rest) (by
      intro x hx
      obtain ⟨e, he, hxe⟩ := hall x (by rw [hnd]; exact hx)
      rw [hxe]
      exact (digitChar_facts e he).1)]
    rw [← hnd, parseDigits_natDigits]

/-! Splitting at pipes, stripping newlines. -/

theorem strchrSplit_append (a b : List Char) (t : Char) (h : t ∉ a) :
    strchrSplit (a ++ t :: b) t = some (a, b) := by
  induction a with
  | nil => simp [strchrSplit]
  | cons c rest ih =>
    have hc : c ≠ t := fun hct => h (hct ▸ List.mem_cons_self c rest)
    show strchrSplit (c :: (rest ++ t :: b)) t = _
    unfold strchrSplit
    rw [if_neg hc, ih fun hm => h (List.mem_cons_of_mem c hm)]
    rfl

theorem strchrSplit_eq_none_iff (l : List Char) (t : Char) :
    strchrSplit l t = none ↔ t ∉ l := by
  induction l with
  | nil => simp [strchrSplit]
  | cons c rest ih =>
    unfold strchrSplit
    by_cases hc : c = t
    · simp [hc]
    · rw [if_neg hc]
      cases hs : strchrSplit rest t with
      | none =>
        simp only [Option.map_none']
        have : t ∉ rest := ih.mp hs
        simp [hc, this, Ne.symm hc]
      | some p =>
        simp only [Option.map_some']
        constructor
        · intro hcontra; exact absurd hcontra (by simp)
        · intro hmem
          have : t ∈ rest := by
            by_contra hno
            rw [ih.mpr hno] at hs
            exact Option.noConfusion hs
          exact absurd (List.mem_cons_of_mem c this) hmem

theorem takeWhile_strip_newline (line : List Char) (h : '\n' ∉ line) :
    (line ++ ['\n']).takeWhile (· ≠ '\n') = line := by
  induction line with
  | nil => decide
  | cons c rest ih =>
    have hc : c ≠ '\n' := fun hcn => h (hcn ▸ List.mem_cons_self c rest)
    show ((c :: (rest ++ ['\n'])).takeWhile (· ≠ '\n')) = c :: rest
    rw [List.takeWhile_cons]
    rw [if_pos (by simp [hc])]
    rw [ih fun hm => h (List.mem_cons_of_mem c hm)]

theorem head?_append_left (a b : List Char) (h : a ≠ []) :
    (a ++ b).head? = a.head? := by
  cases a with
  | nil => exact absurd rfl h
  | cons c rest => rfl

theorem pipe_not_in_natDigits (n : Nat) : '|' ∉ natDigits n := by
  intro hmem
  obtain ⟨d, hd, hc⟩ := natDigits_all_digits n '|' hmem
  exact (digitChar_facts d hd).2.2.1 hc.symm

theorem newline_not_in_natDigits (n : Nat) : '\n' ∉ natDigits n := by
  intro hmem
  obtain ⟨d, hd, hc⟩ := natDigits_all_digits n '\n' hmem
  exact (digitChar_facts d hd).2.2.2.1 hc.symm

/-! The shape of one saved data line and how `load` parses it back. -/

theorem recordLine_eq (s : Student) (nm : String) (hnm : s.name = some nm)
    (hroll : 0 < s.roll) (hmarks : 0 ≤ s.marks) :
    recordLine s =
      natDigits s.roll.toNat ++ '|' ::
        (natDigits s.marks.toNat ++ '|' :: nm.data) := by
  unfold recordLine intToChars
  rw [if_neg (by omega), if_neg (by omega), hnm]
  simp

theorem newline_not_in_recordLine (s : Student) (nm : String)
    (hnm : s.name = some nm) (hroll : 0 < s.roll) (hmarks : 0 ≤ s.marks)
    (hnl : '\n' ∉ nm.data) : '\n' ∉ recordLine s := by
  rw [recordLine_eq s nm hnm hroll hmarks]
  intro hmem
  rcases List.mem_append.mp hmem with h | h
  · exact newline_not_in_natDigits _ h
  · rcases List.mem_cons.mp h with h | h
    · exact absurd h (by decide)
    · rcases List.mem_append.mp h with h | h
      · exact newline_not_in_natDigits _ h
      · rcases List.mem_cons.mp h with h | h
        · exact absurd h (by decide)
        · exact hnl h

theorem parseLine_recordLine (s : Student) (nm : String)
    (hnm : s.name = some nm) (hroll : 0 < s.roll) (hm0 : 0 ≤ s.marks)
    (hm1 : s.marks ≤ 100) (htrim : trim_inplace nm.data = nm.data) :
    parseLine (recordLine s) = some (s.roll, s.marks, nm) := by
  rw [recordLine_eq s nm hnm hroll hm0]
  unfold parseLine
  rw [strchrSplit_append _ _ '|' (pipe_not_in_natDigits _)]
  dsimp only
  rw [strchrSplit_append _ _ '|' (pipe_not_in_natDigits _)]
  dsimp only
  rw [strtolInt_natDigits, strtolInt_natDigits]
  rw [Int.toNat_of_nonneg (le_of_lt hroll), Int.toNat_of_nonneg hm0]
  rw [if_neg (by simp; omega)]
  rw [htrim]

theorem natDigits_head_digit (n : Nat) :
    ∃ d, d < 10 ∧ (natDigits n).head? = some (Nat.digitChar d) := by
  cases hnd : natDigits n with
  | nil => exact absurd hnd (natDigits_ne_nil n)
  | cons c rest =>
    obtain ⟨d, hd, hc⟩ := natDigits_all_digits n c (by rw [hnd]; simp)
    exact ⟨d, hd, by rw [hc]; rfl⟩

/-! `fgets` chunking. -/

theorem fgetsChunks_short (l : List Char) (h : l.length ≤ 1022) :
    fgetsChunks l = [l ++ ['\n']] := by
  unfold fgetsChunks
  cases hlen : l.length with
  | zero => rfl
  | succ k =>
    unfold fgetsChunksAux
    rw [if_pos h]

theorem fgetsChunksAux_chars (fuel : Nat) :
    ∀ (l : List Char), ∀ chunk ∈ fgetsChunksAux fuel l, ∀ c ∈ chunk,
      c ∈ l ∨ c = '\n' := by
  induction fuel with
  | zero =>
    intro l chunk hchunk c hc
    unfold fgetsChunksAux at hchunk
    rw [List.mem_singleton] at hchunk
    subst hchunk
    rcases List.mem_append.mp hc with h | h
    · exact Or.inl h
    · exact Or.inr (List.mem_singleton.mp h)
  | succ g ih =>
    intro l chunk hchunk c hc
    unfold fgetsChunksAux at hchunk
    by_cases hlen : l.length ≤ 1022
    · rw [if_pos hlen, List.mem_singleton] at hchunk
      subst hchunk
      rcases List.mem_append.mp hc with h | h
      · exact Or.inl h
      · exact Or.inr (List.mem_singleton.mp h)
    · rw [if_neg hlen, List.mem_cons] at hchunk
      rcases hchunk with rfl | hchunk
      · exact Or.inl (List.take_subset 1023 l hc)
      · rcases ih (l.drop 1023) chunk hchunk c hc with h | h
        · exact Or.inl (List.drop_subset 1023 l h)
        · exact Or.inr h

theorem fgetsChunks_chars (l : List Char) :
    ∀ chunk ∈ fgetsChunks l, ∀ c ∈ chunk, c ∈ l ∨ c = '\n' :=
  fgetsChunksAux_chars l.length l

/-! Skipping behaviour of the load loop. -/

theorem processBuffer_skip_hash (a : Bool) (st : StudentList) (loaded : Nat)
    (buf : List Char) (h : buf.head? = some '#') :
    processBuffer a st loaded buf = (st, loaded) := by
  unfold processBuffer
  rw [if_pos (by simp [h])]

theorem takeWhile_mem {p : Char → Bool} (l : List Char) (c : Char)
    (h : c ∈ l.takeWhile p) : c ∈ l := by
  induction l with
  | nil => simp [List.takeWhile] at h
  | cons a rest ih =>
    rw [List.takeWhile_cons] at h
    by_cases hp : p a = true
    · rw [hp] at h
      simp only [if_true] at h
      rcases List.mem_cons.mp h with rfl | h
      · exact List.mem_cons_self c rest
      · exact List.mem_cons_of_mem a (ih h)
    · rw [Bool.not_eq_true] at hp
      rw [hp] at h
      simp at h

theorem processBuffer_skip_no_pipe (a : Bool) (st : StudentList)
    (loaded : Nat) (buf : List Char) (h : '|' ∉ buf) :
    processBuffer a st loaded buf = (st, loaded) := by
  unfold processBuffer
  by_cases hh : (buf.head? = some '#' || buf.head? = some '\n') = true
  · rw [if_pos hh]
  · rw [if_neg hh]
    have hnone : parseLine (buf.takeWhile (· ≠ '\n')) = none := by
      unfold parseLine
      rw [(strchrSplit_eq_none_iff _ '|').mpr
        (fun hmem => h (takeWhile_mem buf '|' hmem))]
    rw [hnone]

theorem processBuffer_alloc_false (st : StudentList) (loaded : Nat)
    (buf : List Char) :
    processBuffer false st loaded buf = (st, loaded) := by
  unfold processBuffer
  by_cases hh : (buf.head? = some '#' || buf.head? = some '\n') = true
  · rw [if_pos hh]
  · rw [if_neg hh]
    cases parseLine (buf.takeWhile (· ≠ '\n')) with
    | none => rfl
    | some t => rfl

theorem loadLoop_append (alloc : Nat → Bool) (b1 b2 : List (List Char)) :
    ∀ (idx : Nat) (st : StudentList) (loaded : Nat),
      loadLoop alloc (b1 ++ b2) idx st loaded =
        loadLoop alloc b2 (idx + b1.length)
          (loadLoop alloc b1 idx st loaded).1
          (loadLoop alloc b1 idx st loaded).2 := by
  induction b1 with
  | nil => intro idx st loaded; simp [loadLoop]
  | cons buf rest ih =>
    intro idx st loaded
    show loadLoop alloc (rest ++ b2) (idx + 1) _ _ = _
    rw [ih (idx + 1)]
    rw [show loadLoop alloc (buf :: rest) idx st loaded =
      loadLoop alloc rest (idx + 1)
        (processBuffer (alloc idx) st loaded buf).1
        (processBuffer (alloc idx) st loaded buf).2 from rfl]
    rw [show idx + (buf :: rest).length = idx + 1 + rest.length by
      simp; omega]

theorem loadLoop_skip_all (alloc : Nat → Bool) (bufs : List (List Char))
    (h : ∀ buf ∈ bufs, ∀ (a : Bool) (st : StudentList) (loaded : Nat),
      processBuffer a st loaded buf = (st, loaded)) :
    ∀ (idx : Nat) (st : StudentList) (loaded : Nat),
      loadLoop alloc bufs idx st loaded = (st, loaded) := by
  induction bufs with
  | nil => intro idx st loaded; rfl
  | cons buf rest ih =>
    intro idx st loaded
    show loadLoop alloc rest (idx + 1) _ _ = _
    rw [h buf (by simp) (alloc idx) st loaded]
    exact ih (fun b hb => h b (by simp [hb])) (idx + 1) st loaded

theorem recordLine_ne_nil (s : Student) (nm : String)
    (hnm : s.name = some nm) (hroll : 0 < s.roll) (hmarks : 0 ≤ s.marks) :
    recordLine s ≠ [] := by
  rw [recordLine_eq s nm hnm hroll hmarks]
  intro h
  exact natDigits_ne_nil _ (List.append_eq_nil.mp h).1

theorem processBuffer_record (st : StudentList) (loaded : Nat) (s : Student)
    (hv : validRecord s)
    (hfind : find_index_by_roll st.items s.roll = none) :
    processBuffer true st loaded (recordLine s ++ ['\n']) =
      ({ st with items := st.items ++ [s], modified := true },
        loaded + 1) := by
  obtain ⟨hsome, hroll, hm0, hm1, hpipe, hnl, htrim⟩ := hv
  cases hsn : s.name with
  | none => rw [hsn] at hsome; simp at hsome
  | some nm =>
    rw [hsn] at hpipe hnl htrim
    simp only [Option.getD_some] at hpipe hnl htrim
    obtain ⟨d, hd, hh⟩ := natDigits_head_digit s.roll.toNat
    have hhead : (recordLine s ++ ['\n']).head? = some (Nat.digitChar d) := by
      rw [head?_append_left _ _ (recordLine_ne_nil s nm hsn hroll hm0)]
      rw [recordLine_eq s nm hsn hroll hm0]
      rw [head?_append_left _ _ (natDigits_ne_nil _)]
      exact hh
    have hfacts := digitChar_facts d hd
    unfold processBuffer
    rw [if_neg (by
      simp only [hhead, Option.some.injEq]
      simp [hfacts.2.2.2.2.1, hfacts.2.2.2.1])]
    rw [takeWhile_strip_newline _
      (newline_not_in_recordLine s nm hsn hroll hm0 hnl)]
    rw [parseLine_recordLine s nm hsn hroll hm0 hm1 htrim]
    dsimp only
    have hcreate : create_student s.roll (some nm) s.marks true =
        some ⟨s.roll, some nm, s.marks⟩ := rfl
    rw [hcreate]
    have hs_eta : (⟨s.roll, some nm, s.marks⟩ : Student) = s := by
      cases s with
      | mk r n m =>
        simp only at hsn
        rw [hsn]
    rw [hs_eta]
    dsimp only
    have hadd : add_student true st s =
        (ErrorCode.SUCCESS,
          { st with items := st.items ++ [s], modified := true }) := by
      unfold add_student
      rw [hfind]
      rfl
    rw [hadd]

theorem loadLoop_records (recs : List Student) :
    ∀ (st : StudentList) (loaded idx : Nat),
      (∀ s ∈ recs, validRecord s) →
      (∀ s ∈ recs, (recordLine s).length ≤ 1022) →
      uniqueRolls (st.items ++ recs) →
      (loadLoop (fun _ => true)
          ((recs.map recordLine).flatMap fgetsChunks) idx st
          loaded).1.items = st.items ++ recs ∧
      (loadLoop (fun _ => true)
          ((recs.map recordLine).flatMap fgetsChunks) idx st loaded).2 =
        loaded + recs.length := by
  induction recs with
  | nil => intro st loaded idx _ _ _; simp [loadLoop]
  | cons s rest ih =>
    intro st loaded idx hv hlen huniq
    have hchunks : ((s :: rest).map recordLine).flatMap fgetsChunks =
        (recordLine s ++ ['\n']) ::
          (rest.map recordLine).flatMap fgetsChunks := by
      rw [List.map_cons, List.flatMap_cons,
        fgetsChunks_short _ (hlen s (by simp))]
      rfl
    rw [hchunks]
    have hfind : find_index_by_roll st.items s.roll = none := by
      rw [find_index_eq_none_iff]
      intro t ht htr
      have hmap : ((st.items ++ s :: rest).map Student.roll).Nodup := huniq
      rw [List.map_append, List.map_cons] at hmap
      have := (List.nodup_middle.mp hmap)
      rw [List.nodup_cons] at this
      exact this.1 (by
        rw [← List.map_append]
        exact List.mem_map.mpr ⟨t, List.mem_append_left rest ht, htr⟩)
    have hstep : loadLoop (fun _ => true) ((recordLine s ++ ['\n']) ::
        (rest.map recordLine).flatMap fgetsChunks) idx st loaded =
        loadLoop (fun _ => true) ((rest.map recordLine).flatMap fgetsChunks)
          (idx + 1) { st with items := st.items ++ [s], modified := true }
          (loaded + 1) := by
      show loadLoop (fun _ => true)
          ((rest.map recordLine).flatMap fgetsChunks) (idx + 1)
          (processBuffer true st loaded (recordLine s ++ ['\n'])).1
          (processBuffer true st loaded (recordLine s ++ ['\n'])).2 = _
      rw [processBuffer_record st loaded s (hv s (by simp)) hfind]
    rw [hstep]
    have huniq2 : uniqueRolls ((st.items ++ [s]) ++ rest) := by
      rw [List.append_assoc]
      exact huniq
    obtain ⟨h1, h2⟩ := ih
      { st with items := st.items ++ [s], modified := true } (loaded + 1)
      (idx + 1) (fun t ht => hv t (by simp [ht]))
      (fun t ht => hlen t (by simp [ht])) huniq2
    refine ⟨?_, ?_⟩
    · rw [h1]
      show (st.items ++ [s]) ++ rest = _
      rw [List.append_assoc]
      rfl
    · rw [h2]
      simp only [List.length_cons]
      omega

/-! The three header lines are skipped by the load loop. -/

theorem header3_no_pipe (n : Nat) : '|' ∉ header3 n := by
  unfold header3
  intro hmem
  rcases List.mem_append.mp hmem with h | h
  · exact absurd h (by decide)
  · exact pipe_not_in_natDigits n h

theorem header3_chunks_skip (n : Nat) :
    ∀ chunk ∈ fgetsChunks (header3 n), ∀ (a : Bool) (st : StudentList)
      (loaded : Nat), processBuffer a st loaded chunk = (st, loaded) := by
  intro chunk hchunk a st loaded
  apply processBuffer_skip_no_pipe
  intro hmem
  rcases fgetsChunks_chars (header3 n) chunk hchunk '|' hmem with h | h
  · exact header3_no_pipe n h
  · exact absurd h (by decide)

theorem load_from_file_loop (stIn : StudentList) (fn : String)
    (lines : List (List Char)) (alloc : Nat → Bool) :
    load_from_file true stIn fn lines alloc true =
      (ErrorCode.SUCCESS,
        { (loadLoop alloc (lines.flatMap fgetsChunks) 0
            { stIn with items := [] } 0).1 with
              modified := false, last_filename := some fn },
        (loadLoop alloc (lines.flatMap fgetsChunks) 0
          { stIn with items := [] } 0).2) := rfl

set_option maxRecDepth 40000 in
/-- C2 counterexample: the round-trip claim as stated fails on a roster
satisfying every stated condition (roll > 0, marks in [0,100], name free of
pipes, newlines and edge whitespace) whose name has 1020 characters: the
saved data line is 1024 characters, `fgets` splits it across two buffers,
and the reloaded roster differs from the saved one (its name is truncated
to 1019 characters). -/
theorem c2_roundtrip_counterexample :
    (∀ s ∈ rosterLong.items, validRecord s) ∧
      uniqueRolls rosterLong.items ∧
      (load_from_file true init_student_list "f"
          (save_to_file true true rosterLong "f").2.2 (fun _ => true)
          true).1 = ErrorCode.SUCCESS ∧
      (load_from_file true init_student_list "f"
          (save_to_file true true rosterLong "f").2.2 (fun _ => true)
          true).2.1.items ≠ rosterLong.items := by
  refine ⟨by decide, by decide, by decide, by decide⟩

/-- C2 (amended): for every roster satisfying the uniqueness invariant
whose records all satisfy roll > 0, marks in [0,100], a present name with
no pipe, no newline and no leading or trailing whitespace, and whose
serialized data lines fit the program's read buffer (at most 1022
characters), `save_to_file` followed by `load_from_file` of the produced
file returns SUCCESS and yields a roster with an equal sequence of records
(same roll, marks and name in the same order). -/
theorem c2_roundtrip_amended (st stIn : StudentList) (fn : String)
    (hval : ∀ s ∈ st.items, validRecord s)
    (hfit : ∀ s ∈ st.items, (recordLine s).length ≤ 1022)
    (huniq : uniqueRolls st.items) :
    (load_from_file true stIn fn (save_to_file true true st fn).2.2
        (fun _ => true) true).1 = ErrorCode.SUCCESS ∧
      (load_from_file true stIn fn (save_to_file true true st fn).2.2
        (fun _ => true) true).2.1.items = st.items := by
  have hsave : (save_to_file true true st fn).2.2 =
      header1 :: header2 :: header3 st.items.length ::
        st.items.map recordLine := rfl
  rw [hsave, load_from_file_loop]
  refine ⟨rfl, ?_⟩
  have hflat : (header1 :: header2 :: header3 st.items.length ::
      st.items.map recordLine).flatMap fgetsChunks =
      (fgetsChunks header1 ++ fgetsChunks header2 ++
        fgetsChunks (header3 st.items.length)) ++
        (st.items.map recordLine).flatMap fgetsChunks := by
    rw [List.flatMap_cons, List.flatMap_cons, List.flatMap_cons,
      List.append_assoc, List.append_assoc]
  rw [hflat, loadLoop_append]
  have hskipAll : ∀ buf ∈ fgetsChunks header1 ++ fgetsChunks header2 ++
      fgetsChunks (header3 st.items.length),
      ∀ (a : Bool) (s : StudentList) (loaded : Nat),
        processBuffer a s loaded buf = (s, loaded) := by
    intro buf hbuf a s loaded
    rcases List.mem_append.mp hbuf with hbuf | hbuf
    · rcases List.mem_append.mp hbuf with hbuf | hbuf
      · rw [fgetsChunks_short header1 (by decide)] at hbuf
        rw [List.mem_singleton] at hbuf
        subst hbuf
        exact processBuffer_skip_hash a s loaded _ (by decide)
      · rw [fgetsChunks_short header2 (by decide)] at hbuf
        rw [List.mem_singleton] at hbuf
        subst hbuf
        exact processBuffer_skip_hash a s loaded _ (by decide)
    · exact header3_chunks_skip st.items.length buf hbuf a s loaded
  rw [loadLoop_skip_all (fun _ => true) _ hskipAll]
  have huniq0 : uniqueRolls
      (({ stIn with items := [] } : StudentList).items ++ st.items) := by
    simpa using huniq
  obtain ⟨h1, _⟩ := loadLoop_records st.items { stIn with items := [] } 0
    (0 + (fgetsChunks header1 ++ fgetsChunks header2 ++
      fgetsChunks (header3 st.items.length)).length)
    hval hfit huniq0
  show (loadLoop (fun _ => true)
      ((st.items.map recordLine).flatMap fgetsChunks) _
      { stIn with items := [] } 0).1.items = st.items
  rw [h1]
  rfl

/-- Witness for C2 (amended) at a concrete two-record roster. -/
theorem c2_roundtrip_amended_witness :
    (∀ s ∈ (⟨[⟨1, some "Alice", 90⟩, ⟨2, some "Bob", 30⟩], true, none⟩ :
        StudentList).items, validRecord s) ∧
      (load_from_file true init_student_list "f"
        (save_to_file true true
          ⟨[⟨1, some "Alice", 90⟩, ⟨2, some "Bob", 30⟩], true, none⟩
          "f").2.2
        (fun _ => true) true).2.1.items =
        [⟨1, some "Alice", 90⟩, ⟨2, some "Bob", 30⟩] :=
  ⟨by decide,
    (c2_roundtrip_amended
      ⟨[⟨1, some "Alice", 90⟩, ⟨2, some "Bob", 30⟩], true, none⟩
      init_student_list "f" (by decide) (by decide) (by decide)).2⟩

/-! One arbitrary stored line through the load loop: the loop does exactly
what `parsedOf` plus the duplicate test says. -/

theorem processBuffer_line (line : List Char) (hnl : '\n' ∉ line)
    (st : StudentList) (loaded : Nat) :
    processBuffer true st loaded (line ++ ['\n']) =
      match parsedOf line with
      | none => (st, loaded)
      | some s =>
        if (find_index_by_roll st.items s.roll).isSome then (st, loaded)
        else ({ st with items := st.items ++ [s], modified := true },
          loaded + 1) := by
  cases line with
  | nil =>
    rw [show parsedOf [] = none from rfl]
    unfold processBuffer
    rw [if_pos (by decide)]
  | cons c rest =>
    by_cases hc : c = '#'
    · subst hc
      rw [show parsedOf ('#' :: rest) = none by
        unfold parsedOf
        rw [if_pos (show ('#' :: rest).head? = some '#' from rfl)]]
      exact processBuffer_skip_hash true st loaded _ rfl
    · have hcn : c ≠ '\n' :=
        fun h => hnl (h ▸ List.mem_cons_self c rest)
      unfold processBuffer parsedOf
      rw [if_neg (by
        rw [show ((c :: rest) ++ ['\n']).head? = some c from rfl]
        simp [hc, hcn])]
      rw [if_neg (by
        rw [show (c :: rest).head? = some c from rfl]
        simp [hc])]
      rw [takeWhile_strip_newline _ hnl]
      cases hp : parseLine (c :: rest) with
      | none => rfl
      | some t =>
        obtain ⟨roll, marks, nm⟩ := t
        simp only [Option.map_some']
        rw [show create_student roll (some nm) marks true =
          some ⟨roll, some nm, marks⟩ from rfl]
        dsimp only
        by_cases hf : (find_index_by_roll st.items roll).isSome = true
        · have hadd : add_student true st ⟨roll, some nm, marks⟩ =
              (ErrorCode.ERR_DUPLICATE, st) := by
            unfold add_student
            rw [if_pos hf]
          rw [hadd, if_pos hf]
        · have hadd : add_student true st ⟨roll, some nm, marks⟩ =
              (ErrorCode.SUCCESS,
                { st with
                    items := st.items ++
                      [(⟨roll, some nm, marks⟩ : Student)],
                    modified := true }) := by
            unfold add_student
            rw [if_neg hf]
            rfl
          rw [hadd, if_neg hf]

theorem fwGo_cons (acc : List Student) (s : Student) (l : List Student) :
    fwGo acc (s :: l) =
      if (find_index_by_roll acc s.roll).isSome then fwGo acc l
      else fwGo (acc ++ [s]) l := rfl

theorem fwCount_cons (acc : List Student) (s : Student) (l : List Student) :
    fwCount acc (s :: l) =
      if (find_index_by_roll acc s.roll).isSome then fwCount acc l
      else fwCount (acc ++ [s]) l + 1 := rfl

theorem loadLoop_fw (lines : List (List Char)) :
    ∀ (st : StudentList) (loaded idx : Nat),
      (∀ l ∈ lines, l.length ≤ 1022) → (∀ l ∈ lines, '\n' ∉ l) →
      (loadLoop (fun _ => true) (lines.flatMap fgetsChunks) idx st
          loaded).1.items =
        fwGo st.items (lines.filterMap parsedOf) ∧
      (loadLoop (fun _ => true) (lines.flatMap fgetsChunks) idx st
          loaded).2 =
        loaded + fwCount st.items (lines.filterMap parsedOf) := by
  induction lines with
  | nil =>
    intro st loaded idx _ _
    exact ⟨rfl, by simp [loadLoop, fwCount, List.filterMap_nil]⟩
  | cons line rest ih =>
    intro st loaded idx hlen hnl
    rw [List.flatMap_cons, fgetsChunks_short line (hlen line (by simp))]
    rw [show ([line ++ ['\n']] ++ rest.flatMap fgetsChunks) =
      (line ++ ['\n']) :: rest.flatMap fgetsChunks from rfl]
    have hstep : ∀ (st1 : StudentList) (l1 : Nat),
        loadLoop (fun _ => true)
          ((line ++ ['\n']) :: rest.flatMap fgetsChunks) idx st1 l1 =
        loadLoop (fun _ => true) (rest.flatMap fgetsChunks) (idx + 1)
          (processBuffer true st1 l1 (line ++ ['\n'])).1
          (processBuffer true st1 l1 (line ++ ['\n'])).2 :=
      fun st1 l1 => rfl
    rw [hstep, processBuffer_line line (hnl line (by simp)) st loaded]
    rw [List.filterMap_cons]
    cases hp : parsedOf line with
    | none =>
      exact ih st loaded (idx + 1) (fun l hl => hlen l (by simp [hl]))
        (fun l hl => hnl l (by simp [hl]))
    | some s =>
      dsimp only
      by_cases hf : (find_index_by_roll st.items s.roll).isSome = true
      · rw [if_pos hf]
        obtain ⟨h1, h2⟩ := ih st loaded (idx + 1)
          (fun l hl => hlen l (by simp [hl]))
          (fun l hl => hnl l (by simp [hl]))
        refine ⟨?_, ?_⟩
        · rw [h1, fwGo_cons, if_pos hf]
        · rw [h2, fwCount_cons, if_pos hf]
      · rw [if_neg hf]
        obtain ⟨h1, h2⟩ := ih
          { st with items := st.items ++ [s], modified := true }
          (loaded + 1) (idx + 1) (fun l hl => hlen l (by simp [hl]))
          (fun l hl => hnl l (by simp [hl]))
        refine ⟨?_, ?_⟩
        · rw [h1, fwGo_cons, if_neg hf]
        · rw [h2, fwCount_cons, if_neg hf]
          dsimp only
          omega

theorem fwGo_length (l : List Student) :
    ∀ acc, (fwGo acc l).length = acc.length + fwCount acc l := by
  induction l with
  | nil => intro acc; simp [fwGo, fwCount]
  | cons s rest ih =>
    intro acc
    unfold fwGo fwCount
    by_cases hf : (find_index_by_roll acc s.roll).isSome = true
    · rw [if_pos hf, if_pos hf]
      exact ih acc
    · rw [if_neg hf, if_neg hf]
      rw [ih (acc ++ [s])]
      simp only [List.length_append, List.length_singleton]
      omega

theorem fw_dup_split (l : List Student) :
    ∀ (acc : List Student) (seen : List Int),
      (∀ r : Int, r ∈ seen ↔ (find_index_by_roll acc r).isSome = true) →
      fwCount acc l + dupCountGo seen l = l.length := by
  induction l with
  | nil => intro acc seen _; rfl
  | cons s rest ih =>
    intro acc seen hiff
    unfold fwCount dupCountGo
    by_cases hmem : s.roll ∈ seen
    · have hf : (find_index_by_roll acc s.roll).isSome = true :=
        (hiff s.roll).mp hmem
      rw [if_pos hf, if_pos hmem]
      have := ih acc seen hiff
      simp only [List.length_cons]
      omega
    · have hf : (find_index_by_roll acc s.roll).isSome = false := by
        cases h : (find_index_by_roll acc s.roll).isSome with
        | false => rfl
        | true => exact absurd ((hiff s.roll).mpr h) hmem
      rw [if_neg (by simp [hf]), if_neg hmem]
      have hiff' : ∀ r : Int, r ∈ s.roll :: seen ↔
          (find_index_by_roll (acc ++ [s]) r).isSome = true := by
        intro r
        rw [List.mem_cons, find_index_isSome_iff]
        constructor
        · rintro (rfl | hr)
          · exact ⟨s, by simp, rfl⟩
          · obtain ⟨t, ht, htr⟩ :=
              (find_index_isSome_iff acc r).mp ((hiff r).mp hr)
            exact ⟨t, by simp [ht], htr⟩
        · rintro ⟨t, ht, htr⟩
          rcases List.mem_append.mp ht with ht | ht
          · exact Or.inr ((hiff r).mpr
              ((find_index_isSome_iff acc r).mpr ⟨t, ht, htr⟩))
          · rw [List.mem_singleton] at ht
            subst ht
            exact Or.inl htr.symm
      have := ih (acc ++ [s]) (s.roll :: seen) hiff'
      simp only [List.length_cons]
      omega

/-! Oracle bookkeeping for the allocation-failure claim. -/

theorem loadLoop_all_true (bufs : List (List Char)) :
    ∀ (idx idx' : Nat) (st : StudentList) (loaded : Nat)
      (alloc : Nat → Bool), (∀ j, idx ≤ j → alloc j = true) →
      loadLoop alloc bufs idx st loaded =
        loadLoop (fun _ => true) bufs idx' st loaded := by
  induction bufs with
  | nil => intro idx idx' st loaded alloc _; rfl
  | cons buf rest ih =>
    intro idx idx' st loaded alloc h
    show loadLoop alloc rest (idx + 1)
        (processBuffer (alloc idx) st loaded buf).1
        (processBuffer (alloc idx) st loaded buf).2 = _
    rw [h idx (le_refl idx)]
    exact ih (idx + 1) (idx' + 1) _ _ alloc fun j hj => h j (by omega)

set_option maxRecDepth 40000 in
/-- C4 counterexample: the claim as stated fails on a file consisting of a
single 1028-character well-formed valid data line (it parses to one valid
record, so N = 1, M = 0, D = 0, and the claim demands exactly 1 record
loaded); because the line exceeds the 1023-character `fgets` read, the
loader sees two buffers and loads 2 records. -/
theorem c4_load_tolerance_counterexample :
    ([craftLine].filterMap parsedOf).length = 1 ∧
      dupCount ([craftLine].filterMap parsedOf) = 0 ∧
      (load_from_file true init_student_list "f" [craftLine]
          (fun _ => true) true).1 = ErrorCode.SUCCESS ∧
      (load_from_file true init_student_list "f" [craftLine]
          (fun _ => true) true).2.1.items.length = 2 ∧
      (load_from_file true init_student_list "f" [craftLine]
          (fun _ => true) true).2.2 = 2 := by
  refine ⟨by decide, by decide, by decide, by decide, by decide⟩

/-- C4 (amended): for every file whose stored lines are genuine `fgets`
lines (no embedded newline, at most 1022 characters), `load_from_file`
returns SUCCESS; with N the number of lines that parse as valid data lines
(`parsedOf`) and D the number of those that duplicate the roll of an
earlier accepted line, the reported loaded count and the roster size are
exactly N - D, and the roster is the first-occurrence-wins subsequence of
the parsed records. -/
theorem c4_load_tolerance_amended (stIn : StudentList) (fn : String)
    (lines : List (List Char))
    (hlen : ∀ l ∈ lines, l.length ≤ 1022)
    (hnl : ∀ l ∈ lines, '\n' ∉ l) :
    (load_from_file true stIn fn lines (fun _ => true) true).1 =
        ErrorCode.SUCCESS ∧
      (load_from_file true stIn fn lines (fun _ => true) true).2.1.items =
        firstWins (lines.filterMap parsedOf) ∧
      (load_from_file true stIn fn lines (fun _ => true) true).2.2 =
        (lines.filterMap parsedOf).length -
          dupCount (lines.filterMap parsedOf) ∧
      (load_from_file true stIn fn lines (fun _ => true)
          true).2.1.items.length =
        (lines.filterMap parsedOf).length -
          dupCount (lines.filterMap parsedOf) := by
  rw [load_from_file_loop]
  obtain ⟨h1, h2⟩ := loadLoop_fw lines { stIn with items := [] } 0 0 hlen hnl
  have hsplit : fwCount [] (lines.filterMap parsedOf) +
      dupCount (lines.filterMap parsedOf) =
      (lines.filterMap parsedOf).length := by
    apply fw_dup_split
    intro r
    simp [find_index_by_roll]
  have hlen1 : (firstWins (lines.filterMap parsedOf)).length =
      fwCount [] (lines.filterMap parsedOf) := by
    unfold firstWins
    rw [fwGo_length]
    simp
  refine ⟨rfl, ?_, ?_, ?_⟩
  · exact h1
  · show (loadLoop (fun _ => true) (lines.flatMap fgetsChunks) 0
      { stIn with items := [] } 0).2 = _
    rw [h2]
    show 0 + fwCount [] (lines.filterMap parsedOf) = _
    omega
  · show (loadLoop (fun _ => true) (lines.flatMap fgetsChunks) 0
      { stIn with items := [] } 0).1.items.length = _
    rw [h1]
    show (fwGo [] (lines.filterMap parsedOf)).length = _
    rw [fwGo_length]
    show 0 + fwCount [] (lines.filterMap parsedOf) = _
    omega

/-- Witness for C4 (amended) at a concrete file with one comment line, one
empty line, two good lines, one malformed line and one duplicate line. -/
theorem c4_load_tolerance_amended_witness :
    (∀ l ∈ c4lines, l.length ≤ 1022) ∧ (∀ l ∈ c4lines, '\n' ∉ l) ∧
      (load_from_file true init_student_list "f" c4lines (fun _ => true)
          true).2.2 =
        (c4lines.filterMap parsedOf).length -
          dupCount (c4lines.filterMap parsedOf) :=
  ⟨by decide, by decide,
    (c4_load_tolerance_amended init_student_list "f" c4lines (by decide)
      (by decide)).2.2.1⟩

/-- C5 counterexample: an allocation failure while constructing the record
of the first data line does not abort the remaining read — the following
line is still parsed and added — and the failure is not reported as an
error: the load returns SUCCESS with one record loaded. -/
theorem c5_alloc_skip_counterexample :
    (load_from_file true init_student_list "f"
        ["1|10|a".data, "2|20|b".data] (fun i => decide (i ≠ 0)) true).1 =
        ErrorCode.SUCCESS ∧
      (load_from_file true init_student_list "f"
          ["1|10|a".data, "2|20|b".data] (fun i => decide (i ≠ 0))
          true).2.1.items = [⟨2, some "b", 20⟩] ∧
      (load_from_file true init_student_list "f"
          ["1|10|a".data, "2|20|b".data] (fun i => decide (i ≠ 0))
          true).2.2 = 1 := by
  refine ⟨by decide, by decide, by decide⟩

/-- C5 (amended): an allocation failure while constructing a record does
not abort the remaining read and is not reported as an error: the affected
buffer is skipped (with a warning mislabelled as a duplicate) and loading
continues exactly as if that buffer were absent; `load_from_file` with the
file open and the final filename allocation succeeding always returns
SUCCESS, whatever the per-record allocation outcomes. -/
theorem c5_alloc_skip_amended :
    (∀ (pre : List (List Char)) (bad : List Char) (suf : List (List Char))
        (idx : Nat) (st : StudentList) (loaded : Nat) (alloc : Nat → Bool),
      alloc (idx + pre.length) = false →
      (∀ j, j ≠ idx + pre.length → alloc j = true) →
      loadLoop alloc (pre ++ bad :: suf) idx st loaded =
        loadLoop (fun _ => true) (pre ++ suf) idx st loaded) ∧
    (∀ (st : StudentList) (fn : String) (lines : List (List Char))
        (alloc : Nat → Bool),
      (load_from_file true st fn lines alloc true).1 =
        ErrorCode.SUCCESS) := by
  constructor
  · intro pre
    induction pre with
    | nil =>
      intro bad suf idx st loaded alloc h1 h2
      show loadLoop alloc suf (idx + 1)
        (processBuffer (alloc idx) st loaded bad).1
        (processBuffer (alloc idx) st loaded bad).2 = _
      rw [show alloc idx = false by simpa using h1]
      rw [processBuffer_alloc_false]
      exact loadLoop_all_true suf (idx + 1) idx st loaded alloc
        fun j hj => h2 j (by simp only [List.length_nil, Nat.add_zero]; omega)
    | cons p pre' ih =>
      intro bad suf idx st loaded alloc h1 h2
      show loadLoop alloc (pre' ++ bad :: suf) (idx + 1)
        (processBuffer (alloc idx) st loaded p).1
        (processBuffer (alloc idx) st loaded p).2 = _
      rw [show alloc idx = true from h2 idx (by simp)]
      rw [ih bad suf (idx + 1)
        (processBuffer true st loaded p).1
        (processBuffer true st loaded p).2 alloc
        (by rw [show idx + 1 + pre'.length = idx + (p :: pre').length by
          simp; omega] at *; exact h1)
        (fun j hj => h2 j (by simp at hj ⊢; omega))]
      rfl
  · intro st fn lines alloc
    rfl

/-- Witness for C5 (amended): the skip equation at a concrete file whose
first buffer's allocation fails. -/
theorem c5_alloc_skip_amended_witness :
    ((fun i => decide (i ≠ 0)) (0 + ([] : List (List Char)).length) =
        false) ∧
      loadLoop (fun i => decide (i ≠ 0))
          ([] ++ "1|10|a".data :: ["2|20|b".data]) 0 init_student_list 0 =
        loadLoop (fun _ => true) ([] ++ ["2|20|b".data]) 0
          init_student_list 0 :=
  ⟨by decide,
    c5_alloc_skip_amended.1 [] "1|10|a".data ["2|20|b".data] 0
      init_student_list 0 (fun i => decide (i ≠ 0)) (by decide)
      (fun j hj => by simpa using hj)⟩

end StudentRecords
